import Mathlib

/-!
# ThreadRipper: the scheduler state machine of `so_scheduler.c`

A shallow embedding of the user-space priority scheduler.

* A pointer to a `thread` record (`tthread`) is the position of the record in
  the roster `schedule->threads`: every record is allocated by `so_fork`,
  appended to the roster at once and never removed before `so_end`.
* A priority queue `queues[i]` is the list of the thread pointers held by its
  nodes, head first.
* `unsigned int` is 32 bits wide: `rem_time--` wraps modulo `2 ^ 32` and the
  device sentinel `-1` is `2 ^ 32 - 1`.
* A semaphore is the number of `sem_post` calls made on it. `sem_wait` is the
  point where the calling OS thread parks; the functions below describe the
  scheduler at the moment the caller parks.
* An invalid memory access (a `NULL` or dangling pointer, an index outside
  `queues[6]`) is the result `Fault.segfault`; `error_exit` is `Fault.fatal`.
  `malloc`, `sem_init`, `sem_post` and `pthread_create` are taken to succeed.
* `so_end` is called by the initializing context when no task can run any
  more; a wait of it that would never end is the result `Fault.blocked`.
-/

namespace ThreadRipper

/-- Number of values of an `unsigned int`. -/
def UINT_RANGE : Nat := 4294967296

/-- The value `-1` stored into the `unsigned int` field `io_device`. -/
def NO_DEVICE : Nat := 4294967295

/-- Modelled from the spec: `so_scheduler.h` is not part of the sources; the
spec fixes the priorities to `0..=5` (six priority queues). -/
def SO_MAX_PRIO : Nat := 5

/-- Modelled from the spec: `so_scheduler.h` is not part of the sources;
`INVALID_TID` is the sentinel task id returned by a failed `so_fork`, and the
ids handed out by `pthread_create` (see `pthread_create`) differ from it. -/
def INVALID_TID : Nat := 0

/-- The status byte of a thread (`NEW` = 0, ..., `TERMINATED` = 4). -/
inductive Status where
  | NEW
  | READY
  | RUNNING
  | WAITING
  | TERMINATED
  deriving DecidableEq, Repr

/-- A pointer to a thread record: its position in the roster. -/
abbrev tthread := Nat

/-- The record `thread` of `scheduler_struct.h`. -/
structure thread where
  thread_id : Nat
  priority : Nat
  rem_time : Nat
  start : Nat
  status : Status
  semaphore : Nat
  io_device : Nat
  deriving DecidableEq, Repr

/-- The record `str_schedule` of `scheduler_struct.h`. -/
structure str_schedule where
  threads : List thread
  queues : List (List tthread)
  quantum : Nat
  io : Nat
  current_thread : Option tthread
  end_semaphore : Nat
  deriving DecidableEq, Repr

/-- What stops a call from returning: an invalid memory access, an
`error_exit`, or a wait (`sem_wait`, `pthread_join`) that never ends. -/
inductive Fault where
  | segfault
  | fatal
  | blocked
  deriving DecidableEq, Repr

deriving instance DecidableEq for Except

/-- Reads the record behind a thread pointer. -/
def load (s : str_schedule) (p : tthread) : Except Fault thread :=
  match s.threads[p]? with
  | some t => .ok t
  | none => .error .segfault

/-- Writes the record behind a thread pointer. -/
def store (s : str_schedule) (p : tthread) (t : thread) : str_schedule :=
  { s with threads := s.threads.set p t }

/-- The list held by `queues[i]`. -/
def queue (s : str_schedule) (i : Nat) : List tthread :=
  s.queues.getD i []

/-- `so_init`: the global is `g`; returns the code and the new global.
`SO_MAX_NUM_EVENTS` comes from the header, which is not part of the sources,
and is a parameter. The test `io < 0` is never true of an `unsigned int`. -/
def so_init (SO_MAX_NUM_EVENTS : Nat) (g : Option str_schedule)
    (time_quantum io : Nat) : Int × Option str_schedule :=
  if time_quantum ≤ 0 ∨ io > SO_MAX_NUM_EVENTS ∨ g ≠ none then (-1, g)
  else
    (0, some { threads := [], queues := List.replicate 6 [], quantum := time_quantum,
               io := io, current_thread := none, end_semaphore := 0 })

/-- `init_thread`: the fresh record (its `thread_id` is set by
`pthread_create`). -/
def init_thread (s : str_schedule) (func : Nat) (priority : Nat) : thread :=
  { thread_id := 0, priority := priority, rem_time := s.quantum, start := func,
    status := .NEW, semaphore := 0, io_device := NO_DEVICE }

/-- `add_thread`: appends the record to the roster; its pointer is the old
length of the roster. -/
def add_thread (s : str_schedule) (new_thread : thread) : str_schedule :=
  { s with threads := s.threads ++ [new_thread] }

/-- `enqueue`: appends the thread to the queue of its priority and makes it
`READY`. The two `error_exit` guards cannot fire: every caller has read
through `schedule` before and passes a pointer it has read through. -/
def enqueue (s : str_schedule) (th : tthread) : Except Fault str_schedule := do
  let t ← load s th
  if t.priority < s.queues.length then
    let s1 := { s with queues := s.queues.set t.priority (queue s t.priority ++ [th]) }
    pure (store s1 th { t with status := .READY })
  else
    throw .segfault

/-- The loop `for (i = 5; i >= 0; i--)` of `dequeue` and
`get_max_priority_thread`, entered with `n = 6`: the largest `i < n` whose
queue is not empty. -/
def first_nonempty (s : str_schedule) : Nat → Option Nat
  | 0 => none
  | i + 1 => if queue s i ≠ [] then some i else first_nonempty s i

/-- `dequeue`: removes the head of the highest non-empty queue. -/
def dequeue (s : str_schedule) : str_schedule :=
  match first_nonempty s 6 with
  | some f_prior => { s with queues := s.queues.set f_prior (queue s f_prior).tail }
  | none => s

/-- `get_max_priority_thread`: the head of the highest non-empty queue. -/
def get_max_priority_thread (s : str_schedule) : Option tthread :=
  match first_nonempty s 6 with
  | some f_prior => (queue s f_prior).head?
  | none => none

/-- `wake_thread`: status `RUNNING` and one post on the gate. -/
def wake_thread (s : str_schedule) (th : Option tthread) : Except Fault str_schedule :=
  match th with
  | none => throw .segfault
  | some p => do
    let t ← load s p
    pure (store s p { t with status := .RUNNING, semaphore := t.semaphore + 1 })

/-- `run_next`. -/
def run_next (s : str_schedule) (next : Option tthread) : Except Fault str_schedule :=
  let s1 := dequeue s
  let s2 := { s1 with current_thread := next }
  wake_thread s2 next

/-- `change_thread`. -/
def change_thread (s : str_schedule) (next : Option tthread) (current : tthread) :
    Except Fault str_schedule := do
  let s1 := dequeue s
  let c ← load s1 current
  let s2 := store s1 current { c with rem_time := s1.quantum }
  let s3 ← enqueue s2 current
  let s4 := { s3 with current_thread := next }
  wake_thread s4 next

/-- `reset_quantum`. -/
def reset_quantum (s : str_schedule) (th : Option tthread) : Except Fault str_schedule :=
  match th with
  | none => throw .segfault
  | some p => do
    let t ← load s p
    if t.rem_time ≤ 0 then pure (store s p { t with rem_time := s.quantum })
    else pure s

/-- `continue_current`. -/
def continue_current (s : str_schedule) : Except Fault str_schedule := do
  let s1 ← reset_quantum s s.current_thread
  wake_thread s1 s1.current_thread

/-- `check_scheduler`: the decision function. -/
def check_scheduler (s : str_schedule) : Except Fault str_schedule :=
  let current_thread := s.current_thread
  let next_thread := get_max_priority_thread s
  match current_thread with
  | none => run_next s next_thread
  | some c => do
    let ct ← load s c
    if ct.status = .TERMINATED ∨ ct.status = .WAITING then
      match next_thread with
      | some n => run_next s (some n)
      | none => pure { s with end_semaphore := s.end_semaphore + 1 }
    else
      match next_thread with
      | none => continue_current s
      | some n => do
        let nt ← load s n
        if nt.priority > ct.priority then change_thread s (some n) c
        else if nt.priority = ct.priority ∧ ct.rem_time ≤ 0 then change_thread s (some n) c
        else continue_current s

/-- The body of `so_exec` on a set scheduler, up to the `sem_wait` on which
the caller parks. -/
def exec_body (s : str_schedule) : Except Fault str_schedule :=
  match s.current_thread with
  | none => throw .segfault
  | some c => do
    let t ← load s c
    let s1 := store s c { t with rem_time := (t.rem_time + UINT_RANGE - 1) % UINT_RANGE }
    check_scheduler s1

/-- `so_exec`. -/
def so_exec (g : Option str_schedule) : Except Fault (Option str_schedule) :=
  match g with
  | none => throw .segfault
  | some s => do
    let s1 ← exec_body s
    pure (some s1)

/-- The OS side of `pthread_create`: the id written into the record of the
thread at roster position `th`. Ids are fresh and never `INVALID_TID`. -/
def pthread_create (s : str_schedule) (th : tthread) : Except Fault str_schedule := do
  let t ← load s th
  pure (store s th { t with thread_id := th + 1 })

/-- `so_fork`; `func = none` is the `NULL` handler. -/
def so_fork (g : Option str_schedule) (func : Option Nat) (priority : Nat) :
    Except Fault (Nat × Option str_schedule) :=
  if priority > SO_MAX_PRIO ∨ func = none then pure (INVALID_TID, g)
  else
    match g, func with
    | some s, some f => do
      let new_thread : tthread := s.threads.length
      let s1 := add_thread s (init_thread s f priority)
      let s2 ← enqueue s1 new_thread
      let s3 ← pthread_create s2 new_thread
      let s4 ← (if s3.current_thread = none then check_scheduler s3 else exec_body s3)
      let t ← load s4 new_thread
      pure (t.thread_id, some s4)
    | _, _ => throw .segfault

/-- `so_wait`. -/
def so_wait (g : Option str_schedule) (io : Nat) : Except Fault (Int × Option str_schedule) :=
  match g with
  | none => throw .segfault
  | some s =>
    let current_thread := s.current_thread
    if io ≥ s.io then pure (-1, g)
    else
      match current_thread with
      | none => throw .segfault
      | some c => do
        let t ← load s c
        let s1 := store s c { t with status := .WAITING, io_device := io }
        let s2 ← exec_body s1
        pure (0, some s2)

/-- The `while` loop of `so_signal` from roster node `i` on, with `fuel` nodes
left: the scheduler and the counter after the scan. -/
def signal_scan (io : Nat) : Nat → tthread → str_schedule → Nat → Except Fault (str_schedule × Nat)
  | 0, _, s, counter => pure (s, counter)
  | fuel + 1, i, s, counter => do
    let t ← load s i
    if t.io_device = io ∧ t.status = .WAITING then
      let s1 := store s i { t with io_device := NO_DEVICE }
      let s2 ← enqueue s1 i
      signal_scan io fuel (i + 1) s2 (counter + 1)
    else
      signal_scan io fuel (i + 1) s counter

/-- `so_signal`. -/
def so_signal (g : Option str_schedule) (io : Nat) : Except Fault (Int × Option str_schedule) :=
  match g with
  | none => throw .segfault
  | some s =>
    if io ≥ s.io then pure (-1, g)
    else do
      let (s1, counter) ← signal_scan io s.threads.length 0 s 0
      let s2 ← exec_body s1
      pure ((counter : Int), some s2)

/-- The end of `start_thread`, after the handler of `th` has returned. -/
def start_thread_return (s : str_schedule) (th : tthread) : Except Fault str_schedule := do
  let t ← load s th
  check_scheduler (store s th { t with status := .TERMINATED })

/-- The fields of a record that are written once, at creation. -/
def ident (t : thread) : Nat × Nat × Nat := (t.thread_id, t.priority, t.start)

/-- The identity of every record, the quantum and the device count are kept. -/
def Frame (s s' : str_schedule) : Prop :=
  s'.threads.map ident = s.threads.map ident ∧ s'.quantum = s.quantum ∧ s'.io = s.io

/-- A thread that `so_signal(io)` moves: it is `WAITING` on device `io`. -/
def waits_on (io : Nat) (t : thread) : Bool :=
  decide (t.io_device = io ∧ t.status = .WAITING)

/-- The record of a thread after the scan of `so_signal(io)`. -/
def woken (io : Nat) (t : thread) : thread :=
  if waits_on io t then { t with io_device := NO_DEVICE, status := .READY } else t

/-- The thread at roster position `p` waits on device `io` and has priority `j`. -/
def moved_at (s : str_schedule) (io j : Nat) (p : tthread) : Bool :=
  match s.threads[p]? with
  | some t => waits_on io t && decide (t.priority = j)
  | none => false

/-- The ready structure is consistent: there are six queues, every priority
is at most `SO_MAX_PRIO`, a queue holds only `READY` threads of its own
priority, none twice, and every `READY` thread is in the queue of its
priority. -/
def QInv (s : str_schedule) : Prop :=
  s.queues.length = 6 ∧
  (∀ (p : Nat) (t : thread), s.threads[p]? = some t → t.priority ≤ SO_MAX_PRIO) ∧
  (∀ (i p : Nat), p ∈ queue s i →
    ∃ t, s.threads[p]? = some t ∧ t.status = .READY ∧ t.priority = i) ∧
  (∀ i : Nat, (queue s i).Nodup) ∧
  (∀ (p : Nat) (t : thread), s.threads[p]? = some t → t.status = .READY →
    p ∈ queue s t.priority)

/-- No thread is `NEW` and a `RUNNING` thread is the current one. -/
def StatusInv (s : str_schedule) : Prop :=
  ∀ (p : Nat) (t : thread), s.threads[p]? = some t →
    t.status ≠ .NEW ∧ (t.status = .RUNNING → s.current_thread = some p)

/-- What holds when the decision function is entered: the ready structure is
consistent, no thread is `NEW`, only the current thread can be `RUNNING`, the
current thread is not `READY`, and without a current thread some thread is
queued. -/
def PreInv (s : str_schedule) : Prop :=
  QInv s ∧ StatusInv s ∧
  (s.current_thread = none → get_max_priority_thread s ≠ none) ∧
  (∀ c : Nat, s.current_thread = some c →
    ∃ ct, s.threads[c]? = some ct ∧ ct.status ≠ .READY)

/-- What holds after every operation: the ready structure is consistent, no
thread is `NEW`, only the current thread can be `RUNNING`; before the first
fork the roster is empty; afterwards the current thread is `RUNNING` and no
queued thread has a higher priority, or it is `WAITING` or `TERMINATED` and
every queue is empty. -/
def Inv (s : str_schedule) : Prop :=
  QInv s ∧ StatusInv s ∧
  (s.current_thread = none → s.threads = []) ∧
  (∀ c : Nat, s.current_thread = some c →
    ∃ ct, s.threads[c]? = some ct ∧
      ((ct.status = .RUNNING ∧ ∀ i : Nat, queue s i ≠ [] → i ≤ ct.priority) ∨
       ((ct.status = .WAITING ∨ ct.status = .TERMINATED) ∧ ∀ i : Nat, queue s i = [])))

/-- The caller is a task body: the current thread is set and `RUNNING`. -/
def running (s : str_schedule) : Prop :=
  ∃ (c : Nat) (t : thread),
    s.current_thread = some c ∧ s.threads[c]? = some t ∧ t.status = .RUNNING

/-- The schedulers reached from a successful `so_init` by calls of the API:
`so_fork` by the initializing context before the first dispatch, and
`so_fork`, `so_exec`, `so_wait`, `so_signal` and the return of its handler by
the running task. -/
inductive Reachable (SO_MAX_NUM_EVENTS : Nat) : str_schedule → Prop
  | init (time_quantum io : Nat) (s : str_schedule) :
      so_init SO_MAX_NUM_EVENTS none time_quantum io = (0, some s) →
      Reachable SO_MAX_NUM_EVENTS s
  | fork (s : str_schedule) (func : Option Nat) (priority tid : Nat) (s' : str_schedule) :
      Reachable SO_MAX_NUM_EVENTS s → s.current_thread = none ∨ running s →
      so_fork (some s) func priority = .ok (tid, some s') →
      Reachable SO_MAX_NUM_EVENTS s'
  | exec (s s' : str_schedule) :
      Reachable SO_MAX_NUM_EVENTS s → running s →
      so_exec (some s) = .ok (some s') →
      Reachable SO_MAX_NUM_EVENTS s'
  | wait (s : str_schedule) (io : Nat) (r : Int) (s' : str_schedule) :
      Reachable SO_MAX_NUM_EVENTS s → running s →
      so_wait (some s) io = .ok (r, some s') →
      Reachable SO_MAX_NUM_EVENTS s'
  | signal (s : str_schedule) (io : Nat) (r : Int) (s' : str_schedule) :
      Reachable SO_MAX_NUM_EVENTS s → running s →
      so_signal (some s) io = .ok (r, some s') →
      Reachable SO_MAX_NUM_EVENTS s'
  | terminate (s : str_schedule) (c : Nat) (s' : str_schedule) :
      Reachable SO_MAX_NUM_EVENTS s → running s → s.current_thread = some c →
      start_thread_return s c = .ok s' →
      Reachable SO_MAX_NUM_EVENTS s'

/-- The scheduler in `so_fork` when the decision function is called: the new
record is the last of the roster, `READY`, and the last of the queue of its
priority. -/
def forked (s : str_schedule) (f p : Nat) : str_schedule :=
  { s with
    queues := s.queues.set p (queue s p ++ [s.threads.length])
    threads := s.threads ++ [{ init_thread s f p with
      status := .READY, thread_id := s.threads.length + 1 }] }

/-! ### Example schedulers

`so_init(2, 1)`; the initializing context forks `A` (priority 1); `A` forks `B`
(priority 2), which preempts it; `B` waits on device 0 and `A` runs again. -/

/-- After `so_init(2, 1)`. -/
def example_fresh : str_schedule :=
  { threads := [], queues := [[], [], [], [], [], []], quantum := 2, io := 1,
    current_thread := none, end_semaphore := 0 }

/-- The record of `A` when it is first dispatched. -/
def example_A : thread :=
  { thread_id := 1, priority := 1, rem_time := 2, start := 7, status := .RUNNING,
    semaphore := 1, io_device := NO_DEVICE }

/-- The record of `B` when it is first dispatched. -/
def example_B : thread :=
  { thread_id := 2, priority := 2, rem_time := 2, start := 8, status := .RUNNING,
    semaphore := 1, io_device := NO_DEVICE }

/-- After the first fork: `A` runs. -/
def example_first : str_schedule :=
  { example_fresh with threads := [example_A], current_thread := some 0 }

/-- After `A` has forked `B`: `B` runs and `A` is queued. -/
def example_preempted : str_schedule :=
  { example_fresh with
    threads := [{ example_A with status := .READY }, example_B]
    queues := [[], [0], [], [], [], []]
    current_thread := some 1 }

/-- After `B` has called `so_wait(0)`: `A` runs again and `B` waits. -/
def example_waiting : str_schedule :=
  { example_fresh with
    threads := [{ example_A with semaphore := 2 },
                { example_B with rem_time := 1, status := .WAITING, io_device := 0 }]
    current_thread := some 0 }

/-- After `A` has called `so_signal(0)`: `B` runs again and `A` is queued. -/
def example_signalled : str_schedule :=
  { example_fresh with
    threads := [{ example_A with semaphore := 2, status := .READY },
                { example_B with rem_time := 1, semaphore := 2 }]
    queues := [[], [0], [], [], [], []]
    current_thread := some 1 }

/-- After `so_init(1, 0)` and a first fork at priority 1: the thread runs with
one unit of quantum left. -/
def example_last_unit : str_schedule :=
  { threads := [{ example_A with rem_time := 1 }], queues := [[], [], [], [], [], []],
    quantum := 1, io := 0, current_thread := some 0, end_semaphore := 0 }

/-- After the thread of `example_last_unit` has forked at its own priority. -/
def example_round_robin : str_schedule :=
  { example_last_unit with
    threads := [{ example_A with rem_time := 1, status := .READY },
                { example_B with priority := 1, rem_time := 1 }]
    queues := [[], [0], [], [], [], []]
    current_thread := some 1 }

/-- `so_end` on the scheduler as the tasks have left it. With a non-empty
roster it first waits on the end semaphore, which it passes when the semaphore
has been posted; `pthread_join` then returns for a thread whose `start_thread`
has returned, that is, a `TERMINATED` one. Otherwise the call waits forever.
When it returns, every record, every node and the scheduler are freed and the
global is `NULL`. -/
def so_end (g : Option str_schedule) : Except Fault (Option str_schedule) :=
  match g with
  | none => pure none
  | some s =>
    if s.threads ≠ [] ∧ s.end_semaphore = 0 then throw .blocked
    else if ∀ t ∈ s.threads, t.status = .TERMINATED then pure none
    else throw .blocked

/-- The global after `n` consecutive calls of `so_exec`. -/
def so_exec_n : Nat → Option str_schedule → Except Fault (Option str_schedule)
  | 0, g => pure g
  | n + 1, g => so_exec g >>= so_exec_n n

/-- In the queue `l` the thread `a` stands before `b`: it was enqueued
earlier. -/
def queued_before (a b : Nat) (l : List tthread) : Prop :=
  ∃ l₁ l₂ l₃ : List tthread, l = l₁ ++ a :: (l₂ ++ b :: l₃)

/-! ### More example schedulers

`so_init(1, 1)`; the initializing context forks `A` (priority 1); `A` forks `B`
(priority 0) and waits on device 0; `B` signals device 0 and `A` preempts it. -/

/-- After `so_init(1, 1)`. -/
def example_unit_fresh : str_schedule :=
  { example_fresh with quantum := 1 }

/-- After the first fork: `A` runs with its one unit. -/
def example_unit_first : str_schedule :=
  { example_unit_fresh with
    threads := [{ example_A with rem_time := 1 }]
    current_thread := some 0 }

/-- After `A` has forked `B` at priority 0: `A` goes on with a refilled
quantum. -/
def example_unit_forked : str_schedule :=
  { example_unit_fresh with
    threads := [{ example_A with rem_time := 1, semaphore := 2 },
                { example_B with priority := 0, rem_time := 1, status := .READY, semaphore := 0 }]
    queues := [[1], [], [], [], [], []]
    current_thread := some 0 }

/-- After `A` has called `so_wait(0)`: `A` waits with no quantum left and `B`
runs. -/
def example_unit_waiting : str_schedule :=
  { example_unit_fresh with
    threads := [{ example_A with rem_time := 0, semaphore := 2, status := .WAITING,
                                 io_device := 0 },
                { example_B with priority := 0, rem_time := 1 }]
    current_thread := some 1 }

/-- After `B` has called `so_signal(0)`: `A` runs again, with `rem_time = 0`. -/
def example_drained : str_schedule :=
  { example_unit_fresh with
    threads := [{ example_A with rem_time := 0, semaphore := 3 },
                { example_B with priority := 0, rem_time := 1, status := .READY }]
    queues := [[1], [], [], [], [], []]
    current_thread := some 0 }

/-- After `A` has then called `so_exec`: its `rem_time` has wrapped. -/
def example_wrapped : str_schedule :=
  { example_unit_fresh with
    threads := [{ example_A with rem_time := 4294967295, semaphore := 4 },
                { example_B with priority := 0, rem_time := 1, status := .READY }]
    queues := [[1], [], [], [], [], []]
    current_thread := some 0 }

/-- After the only thread of `example_first` has called `so_wait(0)`: it waits
and the end semaphore has been posted. -/
def example_deadlock : str_schedule :=
  { example_fresh with
    threads := [{ example_A with rem_time := 1, status := .WAITING, io_device := 0 }]
    current_thread := some 0
    end_semaphore := 1 }

/-- After `A` of `example_first` has forked `B` at priority 0. -/
def example_one_queued : str_schedule :=
  { example_fresh with
    threads := [{ example_A with rem_time := 1, semaphore := 2 },
                { example_B with priority := 0, status := .READY, semaphore := 0 }]
    queues := [[1], [], [], [], [], []]
    current_thread := some 0 }

/-- After `A` has also forked `C` at priority 0: `B` is queued before `C`. -/
def example_two_queued : str_schedule :=
  { example_fresh with
    threads := [{ example_A with semaphore := 3 },
                { example_B with priority := 0, status := .READY, semaphore := 0 },
                { example_B with thread_id := 3, priority := 0, start := 9, status := .READY,
                                 semaphore := 0 }]
    queues := [[1, 2], [], [], [], [], []]
    current_thread := some 0 }

/-- A thread `B` runs with a full quantum of 2 while `A`, of the same priority,
is the head of the highest non-empty queue. -/
def example_peer : str_schedule :=
  { example_fresh with
    threads := [{ example_A with status := .READY, semaphore := 2 },
                { example_B with priority := 1 }]
    queues := [[], [0], [], [], [], []]
    current_thread := some 1 }

/-- The scheduler that `so_exec` hands to the decision function when `B` of
`example_peer` has used up its quantum: `rem_time = 0`, and `A`, of the same
priority, is queued. -/
def example_expired : str_schedule :=
  { example_fresh with
    threads := [{ example_A with status := .READY, semaphore := 2 },
                { example_B with priority := 1, rem_time := 0, semaphore := 3 }]
    queues := [[], [0], [], [], [], []]
    current_thread := some 1 }

/-- The order of `a` and `b` in queue `i` is respected by the step to `s'`:
`b` is not the current thread of `s'`, and if `a` is still in queue `i` it
still stands before `b`. -/
def fifo_kept (a b i : Nat) (s' : str_schedule) : Prop :=
  s'.current_thread ≠ some b ∧ (a ∈ queue s' i → queued_before a b (queue s' i))

/-- After `A` of `example_drained` has called `so_wait(0)`: `A` waits with a
wrapped `rem_time` and `B` runs. -/
def example_wait_wrapped : str_schedule :=
  { example_unit_fresh with
    threads := [{ example_A with rem_time := 4294967295, semaphore := 3, status := .WAITING,
                                 io_device := 0 },
                { example_B with priority := 0, rem_time := 1, semaphore := 2 }]
    current_thread := some 1 }

/-! ## Basic facts -/

@[simp] theorem ok_bind {α β : Type} (a : α) (f : α → Except Fault β) :
    (Except.ok a >>= f) = f a := rfl

@[simp] theorem error_bind {α β : Type} (e : Fault) (f : α → Except Fault β) :
    (Except.error e >>= f) = Except.error e := rfl

@[simp] theorem pure_ok {α : Type} (a : α) : (pure a : Except Fault α) = Except.ok a := rfl

@[simp] theorem throw_error {α : Type} (e : Fault) :
    (throw e : Except Fault α) = Except.error e := rfl

theorem load_ok {s : str_schedule} {p : tthread} {t : thread} :
    load s p = .ok t ↔ s.threads[p]? = some t := by
  cases h : s.threads[p]? <;> simp [load, h]

theorem load_of_get {s : str_schedule} {p : tthread} {t : thread}
    (h : s.threads[p]? = some t) : load s p = .ok t := load_ok.2 h

theorem load_error {s : str_schedule} {p : tthread} {e : Fault} (h : load s p = .error e) :
    s.threads[p]? = none := by
  cases h1 : s.threads[p]? <;> simp [load, h1] at h ⊢

@[simp] theorem store_queues (s : str_schedule) (p : tthread) (t : thread) :
    (store s p t).queues = s.queues := rfl

@[simp] theorem store_quantum (s : str_schedule) (p : tthread) (t : thread) :
    (store s p t).quantum = s.quantum := rfl

@[simp] theorem store_io (s : str_schedule) (p : tthread) (t : thread) :
    (store s p t).io = s.io := rfl

@[simp] theorem store_current (s : str_schedule) (p : tthread) (t : thread) :
    (store s p t).current_thread = s.current_thread := rfl

@[simp] theorem store_end (s : str_schedule) (p : tthread) (t : thread) :
    (store s p t).end_semaphore = s.end_semaphore := rfl

@[simp] theorem store_threads (s : str_schedule) (p : tthread) (t : thread) :
    (store s p t).threads = s.threads.set p t := rfl

@[simp] theorem queue_store (s : str_schedule) (p : tthread) (t : thread) (i : Nat) :
    queue (store s p t) i = queue s i := rfl

theorem Frame.refl (s : str_schedule) : Frame s s := ⟨rfl, rfl, rfl⟩

theorem Frame.trans {a b c : str_schedule} (h1 : Frame a b) (h2 : Frame b c) : Frame a c :=
  ⟨h2.1.trans h1.1, h2.2.1.trans h1.2.1, h2.2.2.trans h1.2.2⟩

theorem Frame.length {s s' : str_schedule} (h : Frame s s') :
    s'.threads.length = s.threads.length := by
  have := congrArg List.length h.1
  simpa using this

theorem Frame.get {s s' : str_schedule} (h : Frame s s') {p : tthread} {t : thread}
    (ht : s.threads[p]? = some t) : ∃ t', s'.threads[p]? = some t' ∧ ident t' = ident t := by
  have h1 : (s'.threads.map ident)[p]? = (s.threads.map ident)[p]? := by rw [h.1]
  simp only [List.getElem?_map, ht, Option.map_some'] at h1
  cases h2 : s'.threads[p]? with
  | none => simp [h2] at h1
  | some t' => exact ⟨t', rfl, by simpa [h2] using h1⟩

theorem set_map_ident {l : List thread} {p : Nat} {t t' : thread} (h : l[p]? = some t)
    (hi : ident t' = ident t) : (l.set p t').map ident = l.map ident := by
  apply List.ext_getElem?
  intro j
  simp only [List.getElem?_map, List.getElem?_set]
  by_cases hj : p = j
  · subst hj
    have hlt : p < l.length := (List.getElem?_eq_some.1 h).1
    simp [hlt, h, hi]
  · simp [hj]

theorem store_frame {s : str_schedule} {p : tthread} {t t' : thread}
    (h : s.threads[p]? = some t) (hi : ident t' = ident t) : Frame s (store s p t') :=
  ⟨set_map_ident h hi, rfl, rfl⟩

theorem enqueue_frame {s s' : str_schedule} {p : tthread} (h : enqueue s p = .ok s') :
    Frame s s' := by
  unfold enqueue at h
  cases hl : load s p with
  | error e => simp [hl] at h
  | ok t =>
    simp only [hl, ok_bind] at h
    split at h
    · simp only [pure_ok, Except.ok.injEq] at h
      subst h
      exact ⟨set_map_ident (load_ok.1 hl) rfl, rfl, rfl⟩
    · simp at h

theorem dequeue_frame (s : str_schedule) : Frame s (dequeue s) := by
  unfold dequeue
  split <;> exact ⟨rfl, rfl, rfl⟩

theorem wake_thread_frame {s s' : str_schedule} {th : Option tthread}
    (h : wake_thread s th = .ok s') : Frame s s' := by
  unfold wake_thread at h
  cases th with
  | none => simp at h
  | some p =>
    cases hl : load s p with
    | error e => simp [hl] at h
    | ok t =>
      simp only [hl, ok_bind, pure_ok, Except.ok.injEq] at h
      subst h
      exact store_frame (load_ok.1 hl) rfl

theorem run_next_frame {s s' : str_schedule} {next : Option tthread}
    (h : run_next s next = .ok s') : Frame s s' := by
  unfold run_next at h
  simp only at h
  have h2 := wake_thread_frame h
  exact Frame.trans (dequeue_frame s) (Frame.trans ⟨rfl, rfl, rfl⟩ h2)

theorem change_thread_frame {s s' : str_schedule} {next : Option tthread} {c : tthread}
    (h : change_thread s next c = .ok s') : Frame s s' := by
  unfold change_thread at h
  cases hl : load (dequeue s) c with
  | error e => simp [hl] at h
  | ok t =>
    simp only [hl, ok_bind] at h
    cases he : enqueue (store (dequeue s) c { t with rem_time := (dequeue s).quantum }) c with
    | error e => simp [he] at h
    | ok s3 =>
      simp only [he, ok_bind] at h
      have h1 : Frame (dequeue s)
          (store (dequeue s) c { t with rem_time := (dequeue s).quantum }) :=
        store_frame (load_ok.1 hl) rfl
      refine Frame.trans (dequeue_frame s) (Frame.trans h1 ?_)
      have h2 := wake_thread_frame h
      exact Frame.trans (enqueue_frame he) (Frame.trans ⟨rfl, rfl, rfl⟩ h2)

theorem reset_quantum_frame {s s' : str_schedule} {th : Option tthread}
    (h : reset_quantum s th = .ok s') : Frame s s' ∧ s'.current_thread = s.current_thread := by
  unfold reset_quantum at h
  cases th with
  | none => simp at h
  | some p =>
    cases hl : load s p with
    | error e => simp [hl] at h
    | ok t =>
      simp only [hl, ok_bind] at h
      split at h
      · simp only [pure_ok, Except.ok.injEq] at h
        subst h
        exact ⟨store_frame (load_ok.1 hl) rfl, rfl⟩
      · simp only [pure_ok, Except.ok.injEq] at h
        subst h
        exact ⟨Frame.refl s, rfl⟩

theorem continue_current_frame {s s' : str_schedule} (h : continue_current s = .ok s') :
    Frame s s' := by
  unfold continue_current at h
  cases hr : reset_quantum s s.current_thread with
  | error e => simp [hr] at h
  | ok s1 =>
    simp only [hr, ok_bind] at h
    exact Frame.trans (reset_quantum_frame hr).1 (wake_thread_frame h)

theorem check_scheduler_frame {s s' : str_schedule} (h : check_scheduler s = .ok s') :
    Frame s s' := by
  unfold check_scheduler at h
  simp only at h
  split at h
  · exact run_next_frame h
  · rename_i c hc
    cases hl : load s c with
    | error e => simp [hl] at h
    | ok ct =>
      simp only [hl, ok_bind] at h
      split at h
      · split at h
        · exact run_next_frame h
        · simp only [pure_ok, Except.ok.injEq] at h
          subst h
          exact ⟨rfl, rfl, rfl⟩
      · split at h
        · exact continue_current_frame h
        · rename_i n hn
          cases hln : load s n with
          | error e => simp [hln] at h
          | ok nt =>
            simp only [hln, ok_bind] at h
            split at h
            · exact change_thread_frame h
            · split at h
              · exact change_thread_frame h
              · exact continue_current_frame h

theorem exec_body_frame {s s' : str_schedule} (h : exec_body s = .ok s') : Frame s s' := by
  unfold exec_body at h
  split at h
  · simp at h
  · rename_i c hc
    cases hl : load s c with
    | error e => simp [hl] at h
    | ok t =>
      simp only [hl, ok_bind] at h
      have h1 : Frame s
          (store s c { t with rem_time := (t.rem_time + UINT_RANGE - 1) % UINT_RANGE }) :=
        store_frame (load_ok.1 hl) (by simp [ident])
      exact Frame.trans h1 (check_scheduler_frame h)

theorem pthread_create_id {s s' : str_schedule} {th : tthread}
    (h : pthread_create s th = .ok s') :
    ∃ t, s'.threads[th]? = some t ∧ t.thread_id = th + 1 := by
  unfold pthread_create at h
  cases hl : load s th with
  | error e => simp [hl] at h
  | ok t =>
    simp only [hl, ok_bind, pure_ok, Except.ok.injEq] at h
    subst h
    have hlt : th < s.threads.length := (List.getElem?_eq_some.1 (load_ok.1 hl)).1
    exact ⟨{ t with thread_id := th + 1 }, by simp [hlt], rfl⟩

/-- C1: `so_init` returns -1 exactly when the quantum is 0, the device count
exceeds `SO_MAX_NUM_EVENTS` or a scheduler is already set; otherwise it returns
0 and the new scheduler has the given quantum and device count, an empty
roster, no current thread, six empty queues and the end semaphore at 0. -/
theorem so_init_contract (SO_MAX_NUM_EVENTS : Nat) (g : Option str_schedule)
    (time_quantum io : Nat) :
    ((so_init SO_MAX_NUM_EVENTS g time_quantum io).1 = -1 ↔
      (time_quantum = 0 ∨ io > SO_MAX_NUM_EVENTS ∨ g ≠ none)) ∧
    ((so_init SO_MAX_NUM_EVENTS g time_quantum io).1 = -1 ∨
      ((so_init SO_MAX_NUM_EVENTS g time_quantum io).1 = 0 ∧
        ∃ s, (so_init SO_MAX_NUM_EVENTS g time_quantum io).2 = some s ∧
          s.quantum = time_quantum ∧ s.io = io ∧ s.threads = [] ∧
          s.current_thread = none ∧ s.queues = [[], [], [], [], [], []] ∧
          (∀ i, queue s i = []) ∧ s.end_semaphore = 0)) := by
  unfold so_init
  by_cases h : time_quantum ≤ 0 ∨ io > SO_MAX_NUM_EVENTS ∨ g ≠ none
  · rw [if_pos h]
    refine ⟨?_, Or.inl rfl⟩
    simpa using h
  · rw [if_neg h]
    refine ⟨?_, Or.inr ⟨rfl, _, rfl, rfl, rfl, rfl, rfl, rfl, ?_, rfl⟩⟩
    · simpa using h
    · intro i
      simp only [queue, List.getD_eq_getElem?_getD, List.getElem?_replicate]
      split <;> rfl

/-- C2: on a set scheduler a second `so_init` returns -1 and the scheduler is
the same record as before, for all arguments. -/
theorem so_init_twice (SO_MAX_NUM_EVENTS : Nat) (s : str_schedule) (time_quantum io : Nat) :
    so_init SO_MAX_NUM_EVENTS (some s) time_quantum io = (-1, some s) := by
  simp [so_init]

/-- C3: on a set scheduler `so_fork` returns `INVALID_TID` (leaving the global
`g'`) exactly when the priority exceeds `SO_MAX_PRIO` or the handler is `NULL`,
and then `g'` is the scheduler it was called on, unchanged. -/
theorem so_fork_invalid (s : str_schedule) (func : Option Nat) (priority : Nat)
    (g' : Option str_schedule) :
    so_fork (some s) func priority = .ok (INVALID_TID, g') ↔
      ((priority > SO_MAX_PRIO ∨ func = none) ∧ g' = some s) := by
  unfold so_fork
  by_cases h : priority > SO_MAX_PRIO ∨ func = none
  · rw [if_pos h]
    simp only [pure_ok, Except.ok.injEq, Prod.mk.injEq, true_and, h]
    exact eq_comm
  · rw [if_neg h]
    simp only [h, false_and, iff_false]
    intro hr
    cases func with
    | none => simp at h
    | some f =>
      simp only at hr
      cases h2 : enqueue (add_thread s (init_thread s f priority)) s.threads.length with
      | error e => simp [h2] at hr
      | ok s2 =>
        simp only [h2, ok_bind] at hr
        cases h3 : pthread_create s2 s.threads.length with
        | error e => simp [h3] at hr
        | ok s3 =>
          simp only [h3, ok_bind] at hr
          obtain ⟨t3, ht3, hid⟩ := pthread_create_id h3
          cases h4 : (if s3.current_thread = none then check_scheduler s3 else exec_body s3) with
          | error e => simp [h4] at hr
          | ok s4 =>
            simp only [h4, ok_bind] at hr
            have hf : Frame s3 s4 := by
              split at h4
              · exact check_scheduler_frame h4
              · exact exec_body_frame h4
            obtain ⟨t4, ht4, hid4⟩ := hf.get ht3
            simp only [load_of_get ht4, ok_bind, pure_ok, Except.ok.injEq, Prod.mk.injEq] at hr
            have : t4.thread_id = t3.thread_id := congrArg Prod.fst hid4
            simp [INVALID_TID] at hr
            omega

/-! ## The scan for the highest non-empty queue -/

theorem first_nonempty_some {s : str_schedule} {n f : Nat} (h : first_nonempty s n = some f) :
    f < n ∧ queue s f ≠ [] ∧ ∀ i, f < i → i < n → queue s i = [] := by
  induction n with
  | zero => simp [first_nonempty] at h
  | succ k ih =>
    unfold first_nonempty at h
    by_cases hq : queue s k ≠ []
    · rw [if_pos hq] at h
      cases h
      exact ⟨Nat.lt_succ_self _, hq, fun i h1 h2 => by omega⟩
    · rw [if_neg hq] at h
      obtain ⟨h1, h2, h3⟩ := ih h
      refine ⟨by omega, h2, fun i hi1 hi2 => ?_⟩
      by_cases hik : i = k
      · subst hik
        exact not_not.1 hq
      · exact h3 i hi1 (by omega)

theorem first_nonempty_none {s : str_schedule} {n : Nat} (h : first_nonempty s n = none) :
    ∀ i, i < n → queue s i = [] := by
  induction n with
  | zero => intro i hi; omega
  | succ k ih =>
    unfold first_nonempty at h
    by_cases hq : queue s k ≠ []
    · rw [if_pos hq] at h
      cases h
    · rw [if_neg hq] at h
      intro i hi
      by_cases hik : i = k
      · subst hik
        exact not_not.1 hq
      · exact ih h i (by omega)

theorem get_max_some {s : str_schedule} {n : tthread} (h : get_max_priority_thread s = some n) :
    ∃ f rest, first_nonempty s 6 = some f ∧ queue s f = n :: rest := by
  unfold get_max_priority_thread at h
  cases hf : first_nonempty s 6 with
  | none => simp [hf] at h
  | some f =>
    simp only [hf] at h
    cases hq : queue s f with
    | nil => simp [hq] at h
    | cons a rest =>
      simp only [hq, List.head?_cons, Option.some.injEq] at h
      subst h
      exact ⟨f, rest, rfl, hq⟩

theorem get_max_none {s : str_schedule} (h : get_max_priority_thread s = none) :
    first_nonempty s 6 = none := by
  unfold get_max_priority_thread at h
  cases hf : first_nonempty s 6 with
  | none => rfl
  | some f =>
    simp only [hf] at h
    have := (first_nonempty_some hf).2.1
    cases hq : queue s f with
    | nil => exact absurd hq this
    | cons a rest => simp [hq] at h

theorem get_max_of_first {s : str_schedule} {f : Nat} {n : tthread} {rest : List tthread}
    (hf : first_nonempty s 6 = some f) (hq : queue s f = n :: rest) :
    get_max_priority_thread s = some n := by
  simp [get_max_priority_thread, hf, hq]

/-! ## Closed forms of the queue and wake functions -/

theorem enqueue_eq {s : str_schedule} {p : tthread} {t : thread}
    (ht : s.threads[p]? = some t) (hp : t.priority < s.queues.length) :
    enqueue s p = .ok { s with
      queues := s.queues.set t.priority (queue s t.priority ++ [p])
      threads := s.threads.set p { t with status := .READY } } := by
  simp [enqueue, load_of_get ht, hp, store]

theorem dequeue_eq {s : str_schedule} {f : Nat} (hf : first_nonempty s 6 = some f) :
    dequeue s = { s with queues := s.queues.set f (queue s f).tail } := by
  simp [dequeue, hf]

theorem wake_thread_eq {s : str_schedule} {p : tthread} {t : thread}
    (ht : s.threads[p]? = some t) :
    wake_thread s (some p) = .ok { s with
      threads := s.threads.set p { t with status := .RUNNING, semaphore := t.semaphore + 1 } } := by
  simp [wake_thread, load_of_get ht, store]

theorem run_next_eq {s : str_schedule} {f : Nat} {n : tthread} {nt : thread}
    (hf : first_nonempty s 6 = some f) (hn : s.threads[n]? = some nt) :
    run_next s (some n) = .ok { s with
      queues := s.queues.set f (queue s f).tail
      current_thread := some n
      threads := s.threads.set n { nt with status := .RUNNING, semaphore := nt.semaphore + 1 } } := by
  have h : ({ dequeue s with current_thread := some n } : str_schedule).threads[n]? = some nt := by
    rw [dequeue_eq hf]; exact hn
  simp only [run_next, wake_thread_eq h]
  simp [dequeue_eq hf]

theorem change_thread_eq {s : str_schedule} {f : Nat} {n c : tthread} {nt ct : thread}
    (hf : first_nonempty s 6 = some f) (hn : s.threads[n]? = some nt)
    (hc : s.threads[c]? = some ct) (hne : n ≠ c) (hp : ct.priority < s.queues.length) :
    change_thread s (some n) c = .ok { s with
      queues := (s.queues.set f (queue s f).tail).set ct.priority
        ((s.queues.set f (queue s f).tail).getD ct.priority [] ++ [c])
      current_thread := some n
      threads := (s.threads.set c { ct with rem_time := s.quantum, status := .READY }).set n
        { nt with status := .RUNNING, semaphore := nt.semaphore + 1 } } := by
  have hclt : c < s.threads.length := (List.getElem?_eq_some.1 hc).1
  have h1 : load (dequeue s) c = .ok ct := by
    rw [dequeue_eq hf]; exact load_of_get hc
  have h2 : (store (dequeue s) c { ct with rem_time := (dequeue s).quantum }).threads[c]? =
      some { ct with rem_time := s.quantum } := by
    rw [dequeue_eq hf]; simp [hclt]
  have h3 : ({ ct with rem_time := s.quantum } : thread).priority <
      (store (dequeue s) c { ct with rem_time := (dequeue s).quantum }).queues.length := by
    rw [dequeue_eq hf]; simpa using hp
  unfold change_thread
  simp only [h1, ok_bind, enqueue_eq h2 h3]
  rw [wake_thread_eq (t := nt)]
  · simp [dequeue_eq hf, queue]
  · simp [dequeue_eq hf, List.getElem?_set, hne, Ne.symm hne, hn]

theorem continue_current_eq {s : str_schedule} {c : tthread} {ct : thread}
    (hcur : s.current_thread = some c) (hc : s.threads[c]? = some ct) :
    continue_current s = .ok { s with
      threads := s.threads.set c { ct with
        rem_time := if ct.rem_time ≤ 0 then s.quantum else ct.rem_time
        status := .RUNNING
        semaphore := ct.semaphore + 1 } } := by
  have hclt : c < s.threads.length := (List.getElem?_eq_some.1 hc).1
  unfold continue_current reset_quantum
  simp only [hcur, load_of_get hc, ok_bind]
  by_cases hr : ct.rem_time ≤ 0
  · simp only [hr, if_true, pure_ok, ok_bind, store_current]
    rw [hcur, wake_thread_eq (t := { ct with rem_time := s.quantum })]
    · simp [hcur]
    · simp [hclt]
  · simp only [hr, if_false, pure_ok, ok_bind]
    rw [hcur, wake_thread_eq hc]
    simp [hcur]

/-! ## The cases of the decision function -/

theorem check_none {s : str_schedule} (hcur : s.current_thread = none) :
    check_scheduler s = run_next s (get_max_priority_thread s) := by
  simp [check_scheduler, hcur]

theorem check_parked_next {s : str_schedule} {c n : tthread} {ct : thread}
    (hcur : s.current_thread = some c) (hc : s.threads[c]? = some ct)
    (hst : ct.status = .TERMINATED ∨ ct.status = .WAITING)
    (hn : get_max_priority_thread s = some n) :
    check_scheduler s = run_next s (some n) := by
  simp [check_scheduler, hcur, load_of_get hc, hst, hn]

theorem check_parked_none {s : str_schedule} {c : tthread} {ct : thread}
    (hcur : s.current_thread = some c) (hc : s.threads[c]? = some ct)
    (hst : ct.status = .TERMINATED ∨ ct.status = .WAITING)
    (hn : get_max_priority_thread s = none) :
    check_scheduler s = .ok { s with end_semaphore := s.end_semaphore + 1 } := by
  simp [check_scheduler, hcur, load_of_get hc, hst, hn]

theorem check_running_none {s : str_schedule} {c : tthread} {ct : thread}
    (hcur : s.current_thread = some c) (hc : s.threads[c]? = some ct)
    (hst : ¬ (ct.status = .TERMINATED ∨ ct.status = .WAITING))
    (hn : get_max_priority_thread s = none) :
    check_scheduler s = continue_current s := by
  simp [check_scheduler, hcur, load_of_get hc, hst, hn]

theorem check_running_next {s : str_schedule} {c n : tthread} {ct nt : thread}
    (hcur : s.current_thread = some c) (hc : s.threads[c]? = some ct)
    (hst : ¬ (ct.status = .TERMINATED ∨ ct.status = .WAITING))
    (hn : get_max_priority_thread s = some n) (hnt : s.threads[n]? = some nt) :
    check_scheduler s =
      if nt.priority > ct.priority ∨ (nt.priority = ct.priority ∧ ct.rem_time ≤ 0) then
        change_thread s (some n) c
      else continue_current s := by
  simp only [check_scheduler, hcur, load_of_get hc, hst, hn, load_of_get hnt, ok_bind, if_false]
  by_cases h1 : nt.priority > ct.priority
  · simp [h1]
  · by_cases h2 : nt.priority = ct.priority ∧ ct.rem_time ≤ 0
    · simp [h1, h2]
    · simp [h1, h2]

/-- C4: on a fresh scheduler (empty roster, no current thread, six empty
queues) `so_fork` with a handler and a priority `p ≤ SO_MAX_PRIO` dispatches
the new thread: the roster is the one record `t`, `t` is current and `RUNNING`
with priority `p`, `rem_time = quantum`, the sentinel device and one post on
its gate, and the six queues are empty again. Moreover, in every scheduler, the
queues that `so_fork` hands to the decision function are never all empty. -/
theorem so_fork_first (s : str_schedule) (f p : Nat) (hp : p ≤ SO_MAX_PRIO)
    (hroster : s.threads = []) (hcur : s.current_thread = none)
    (hqueues : s.queues = [[], [], [], [], [], []]) :
    so_fork (some s) (some f) p = .ok (1, some { s with
      threads := [{ thread_id := 1, priority := p, rem_time := s.quantum, start := f,
                    status := .RUNNING, semaphore := 1, io_device := NO_DEVICE }]
      current_thread := some 0 }) ∧
    ∀ (z : str_schedule) (f' p' : Nat) (z2 z3 : str_schedule), p' ≤ SO_MAX_PRIO →
      enqueue (add_thread z (init_thread z f' p')) z.threads.length = .ok z2 →
      pthread_create z2 z.threads.length = .ok z3 →
      get_max_priority_thread z3 ≠ none := by
  constructor
  · obtain ⟨T, Q, q, io, cur, e⟩ := s
    simp only at hroster hcur hqueues
    subst hroster hcur hqueues
    simp only [ SO_MAX_PRIO] at hp
    interval_cases p <;> rfl
  · intro z f' p' z2 z3 hp' h2 h3 hnone
    have hfn := get_max_none hnone
    have hempty := first_nonempty_none hfn p' (by simp only [ SO_MAX_PRIO] at hp'; omega)
    have hget : (add_thread z (init_thread z f' p')).threads[z.threads.length]? =
        some (init_thread z f' p') := by
      simp [add_thread]
    unfold enqueue at h2
    simp only [load_of_get hget, ok_bind] at h2
    split at h2
    · rename_i hlen
      simp only [pure_ok, Except.ok.injEq] at h2
      subst h2
      unfold pthread_create at h3
      cases hl : load (store { add_thread z (init_thread z f' p') with
          queues := (add_thread z (init_thread z f' p')).queues.set (init_thread z f' p').priority
            (queue (add_thread z (init_thread z f' p')) (init_thread z f' p').priority ++
              [z.threads.length]) } z.threads.length
          { init_thread z f' p' with status := .READY }) z.threads.length with
      | error e => simp [hl] at h3
      | ok t =>
        simp only [hl, ok_bind, pure_ok, Except.ok.injEq] at h3
        subst h3
        simp only [queue, store_queues, init_thread, List.getD_eq_getElem?_getD,
          List.getElem?_set, if_true] at hempty
        simp only [init_thread] at hlen
        simp [hlen] at hempty
    · simp at h2

theorem getD_set (qs : List (List tthread)) (f i : Nat) (q : List tthread) :
    (qs.set f q).getD i [] = if f = i ∧ f < qs.length then q else qs.getD i [] := by
  simp only [List.getD_eq_getElem?_getD, List.getElem?_set]
  by_cases h1 : f = i
  · by_cases h2 : f < qs.length
    · subst h1
      simp [h2]
    · subst h1
      simp [h2, List.getElem?_eq_none (not_lt.1 h2)]
  · simp [h1]

theorem queue_mem_queues {s : str_schedule} {i : Nat} (h : queue s i ≠ []) :
    queue s i ∈ s.queues := by
  unfold queue at h ⊢
  rw [List.getD_eq_getElem?_getD] at h ⊢
  cases hq : s.queues[i]? with
  | none => simp [hq] at h
  | some q =>
    simp only [Option.getD_some]
    obtain ⟨hlt, hget⟩ := List.getElem?_eq_some.1 hq
    rw [← hget]
    exact List.getElem_mem _

theorem mem_queue_mem {s : str_schedule} {i : Nat} {p : tthread} (h : p ∈ queue s i) :
    ∃ q ∈ s.queues, p ∈ q :=
  ⟨queue s i, queue_mem_queues (List.ne_nil_of_mem h), h⟩

theorem queue_lt_length {s : str_schedule} {i : Nat} (h : queue s i ≠ []) :
    i < s.queues.length := by
  by_contra hlt
  apply h
  simp [queue, List.getD_eq_getElem?_getD, List.getElem?_eq_none (not_lt.1 hlt)]

theorem exec_body_eq {s : str_schedule} {c : tthread} {t : thread}
    (hcur : s.current_thread = some c) (hc : s.threads[c]? = some t) :
    exec_body s = check_scheduler
      (store s c { t with rem_time := (t.rem_time + UINT_RANGE - 1) % UINT_RANGE }) := by
  simp [exec_body, hcur, load_of_get hc]

/-- The unsigned decrement takes one unit off a positive `unsigned int`. -/
theorem dec_pos {r : Nat} (h0 : 0 < r) (h1 : r < UINT_RANGE) :
    (r + UINT_RANGE - 1) % UINT_RANGE + 1 = r := by
  unfold UINT_RANGE at *
  omega

/-- What `so_wait` does with a current thread `c` (a valid pointer, held by no
queue, and all queued pointers valid): it returns -1 exactly when
`io ≥ io_count`, and then the scheduler is unchanged; otherwise it returns 0
and afterwards `c` is `WAITING` on device `io`, is in no queue, and its
`rem_time` went through one unsigned decrement, which is one unit less only
when it was positive. -/
theorem so_wait_contract (s : str_schedule) (c : tthread) (t : thread) (io : Nat)
    (hcur : s.current_thread = some c) (hc : s.threads[c]? = some t)
    (hq : ∀ q ∈ s.queues, ∀ p ∈ q, p < s.threads.length ∧ p ≠ c) :
    (∀ g', so_wait (some s) io = .ok (-1, g') ↔ (io ≥ s.io ∧ g' = some s)) ∧
    (io ≥ s.io ∨ ∃ s' t', so_wait (some s) io = .ok (0, some s') ∧
      s'.threads[c]? = some t' ∧
      t' = { t with status := .WAITING, io_device := io,
                    rem_time := (t.rem_time + UINT_RANGE - 1) % UINT_RANGE } ∧
      (0 < t.rem_time ∧ t.rem_time < UINT_RANGE → t'.rem_time + 1 = t.rem_time) ∧
      ∀ i, c ∉ queue s' i) := by
  have hclt : c < s.threads.length := (List.getElem?_eq_some.1 hc).1
  by_cases hio : io ≥ s.io
  · refine ⟨fun g' => ?_, Or.inl hio⟩
    simp only [so_wait, hio, if_true, pure_ok, Except.ok.injEq, Prod.mk.injEq, true_and]
    exact eq_comm
  · -- the scheduler just before the decision
    let t1 : thread := { t with status := .WAITING, io_device := io }
    let t2 : thread := { t1 with rem_time := (t.rem_time + UINT_RANGE - 1) % UINT_RANGE }
    let s2 : str_schedule := store (store s c t1) c t2
    have hs2c : s2.threads[c]? = some t2 := by simp [s2, hclt]
    have hs2cur : s2.current_thread = some c := hcur
    have hst : t2.status = .TERMINATED ∨ t2.status = .WAITING := Or.inr rfl
    have hwait : so_wait (some s) io = (check_scheduler s2 >>= fun r => pure (0, some r)) := by
      have h1 : (store s c t1).threads[c]? = some t1 := by simp [hclt]
      simp only [so_wait, hio, if_false, hcur, load_of_get hc, ok_bind]
      rw [exec_body_eq (s := store s c t1) hcur h1]
    have key : ∃ s', check_scheduler s2 = .ok s' ∧ s'.threads[c]? = some t2 ∧
        ∀ i, c ∉ queue s' i := by
      cases hn : get_max_priority_thread s2 with
      | none =>
        refine ⟨_, check_parked_none hs2cur hs2c hst hn, hs2c, fun i hi => ?_⟩
        obtain ⟨q, hq1, hq2⟩ := mem_queue_mem (s := s) (i := i) hi
        exact (hq q hq1 c hq2).2 rfl
      | some n =>
        obtain ⟨f, rest, hf, hqf⟩ := get_max_some hn
        have hnq : n ∈ queue s f := by
          have : queue s f = n :: rest := hqf
          simp [this]
        obtain ⟨q, hq1, hq2⟩ := mem_queue_mem hnq
        have hn1 := hq q hq1 n hq2
        have hnlt : n < s2.threads.length := by simpa [s2] using hn1.1
        obtain ⟨nt, hnt⟩ : ∃ nt, s2.threads[n]? = some nt :=
          ⟨_, List.getElem?_eq_getElem hnlt⟩
        refine ⟨_, (check_parked_next hs2cur hs2c hst hn).trans (run_next_eq hf hnt), ?_, ?_⟩
        · simp only [List.getElem?_set, hn1.2, if_false]
          exact hs2c
        · intro i hi
          simp only [queue, getD_set] at hi
          have hi' : c ∈ queue s i := by
            split at hi
            · rename_i hfi
              rw [← hfi.1]
              exact List.mem_of_mem_tail hi
            · exact hi
          obtain ⟨q', hq1', hq2'⟩ := mem_queue_mem hi'
          exact (hq q' hq1' c hq2').2 rfl
    obtain ⟨s', hs', hth, hnq⟩ := key
    refine ⟨fun g' => ?_, Or.inr ⟨s', t2, ?_, hth, rfl, ?_, hnq⟩⟩
    · simp [hwait, hs', hio]
    · simp [hwait, hs']
    · intro h
      exact dec_pos h.1 h.2

theorem moved_at_congr {s s' : str_schedule} {io j : Nat} {p : Nat}
    (h : s'.threads[p]? = s.threads[p]?) : moved_at s' io j p = moved_at s io j p := by
  simp [moved_at, h]

/-- One iteration of the scan of `so_signal` on a thread that waits on `io`. -/
theorem signal_step {s : str_schedule} {io i : Nat} {t : thread}
    (ht : s.threads[i]? = some t) (hw : waits_on io t = true)
    (hp : t.priority < s.queues.length) :
    ∃ s2, enqueue (store s i { t with io_device := NO_DEVICE }) i = .ok s2 ∧
      s2.threads = s.threads.set i (woken io t) ∧
      (∀ j, queue s2 j = queue s j ++ if t.priority = j then [i] else []) ∧
      s2.queues.length = s.queues.length ∧ s2.quantum = s.quantum ∧ s2.io = s.io ∧
      s2.current_thread = s.current_thread ∧ s2.end_semaphore = s.end_semaphore := by
  have hilt : i < s.threads.length := (List.getElem?_eq_some.1 ht).1
  have h1 : (store s i { t with io_device := NO_DEVICE }).threads[i]? =
      some { t with io_device := NO_DEVICE } := by simp [hilt]
  refine ⟨_, enqueue_eq h1 hp, ?_, ?_, ?_, rfl, rfl, rfl, rfl⟩
  · simp [woken, hw]
  · intro j
    simp only [queue, store_queues, getD_set, hp, and_true]
    by_cases hj : t.priority = j
    · simp [hj]
    · simp [hj]
  · simp

theorem signal_scan_spec (io : Nat) :
    ∀ (fuel : Nat) (i : Nat) (s : str_schedule) (counter : Nat),
      i + fuel = s.threads.length →
      (∀ (p : Nat) (t : thread), s.threads[p]? = some t → t.priority < s.queues.length) →
      ∃ s1, signal_scan io fuel i s counter =
          .ok (s1, counter + (s.threads.drop i).countP (waits_on io)) ∧
        (∀ p, s1.threads[p]? = if p < i then s.threads[p]? else (s.threads[p]?).map (woken io)) ∧
        (∀ j, queue s1 j = queue s j ++ (List.range' i fuel).filter (moved_at s io j)) ∧
        s1.queues.length = s.queues.length ∧ s1.quantum = s.quantum ∧ s1.io = s.io ∧
        s1.current_thread = s.current_thread ∧ s1.end_semaphore = s.end_semaphore := by
  intro fuel
  induction fuel with
  | zero =>
    intro i s counter hlen hprio
    refine ⟨s, ?_, ?_, ?_, rfl, rfl, rfl, rfl, rfl⟩
    · have : s.threads.drop i = [] := List.drop_eq_nil_of_le (by omega)
      simp [signal_scan, this]
    · intro p
      split
      · rfl
      · rename_i hp
        rw [List.getElem?_eq_none (by omega)]
        rfl
    · intro j
      simp
  | succ fuel ih =>
    intro i s counter hlen hprio
    have hilt : i < s.threads.length := by omega
    obtain ⟨t, ht⟩ : ∃ t, s.threads[i]? = some t := ⟨_, List.getElem?_eq_getElem hilt⟩
    have hdrop : s.threads.drop i = t :: s.threads.drop (i + 1) := by
      rw [List.drop_eq_getElem_cons hilt]
      congr 1
      exact (List.getElem?_eq_some.1 ht).2
    unfold signal_scan
    simp only [load_of_get ht, ok_bind]
    by_cases hw : t.io_device = io ∧ t.status = .WAITING
    · have hw' : waits_on io t = true := by simpa [waits_on] using hw
      rw [if_pos hw]
      obtain ⟨s2, hs2, hT2, hQ2, hL2, hq2, hio2, hc2, he2⟩ := signal_step ht hw' (hprio i t ht)
      rw [hs2]
      simp only [ok_bind]
      have hget2 : ∀ p, p ≠ i → s2.threads[p]? = s.threads[p]? := by
        intro p hp
        rw [hT2, List.getElem?_set]
        simp [Ne.symm hp]
      obtain ⟨s1, hs1, ht1, hq1, hl1, hqu1, hio1, hcur1, hend1⟩ := ih (i + 1) s2 (counter + 1)
        (by rw [hT2, List.length_set]; omega) (by
          intro p t' hp
          rw [hL2]
          by_cases hip : p = i
          · subst hip
            rw [hT2, List.getElem?_set] at hp
            simp only [if_true, hilt] at hp
            cases hp
            simpa [woken, hw'] using hprio p t ht
          · rw [hget2 p hip] at hp
            exact hprio p t' hp)
      refine ⟨s1, ?_, ?_, ?_, hl1.trans hL2, hqu1.trans hq2, hio1.trans hio2,
        hcur1.trans hc2, hend1.trans he2⟩
      · rw [hs1, hdrop, List.countP_cons, hT2, List.drop_set_of_lt _ _ (Nat.lt_succ_self i)]
        simp only [hw', if_true, Nat.succ_eq_add_one]
        rw [show ∀ a b : Nat, a + 1 + b = a + (b + 1) from fun a b => by omega]
      · intro p
        by_cases hip : p = i
        · subst hip
          rw [ht1 p, if_pos (Nat.lt_succ_self p), if_neg (lt_irrefl p), hT2]
          simp [hilt, ht]
        · by_cases hpi : p < i
          · rw [ht1 p, if_pos (by omega), if_pos hpi, hget2 p hip]
          · rw [ht1 p, if_neg (by omega), if_neg hpi, hget2 p hip]
      · intro j
        rw [hq1 j, hQ2 j, List.range'_succ, List.filter_cons]
        have hc : (List.range' (i + 1) fuel).filter (moved_at s2 io j) =
            (List.range' (i + 1) fuel).filter (moved_at s io j) := by
          apply List.filter_congr
          intro x hx
          apply moved_at_congr
          have := (List.mem_range'_1.1 hx).1
          exact hget2 x (by omega)
        rw [hc]
        by_cases hj : t.priority = j
        · simp [hj, moved_at, ht, hw']
        · simp [hj, moved_at, ht, hw']
    · have hw' : waits_on io t = false := by simpa [waits_on] using hw
      rw [if_neg hw]
      obtain ⟨s1, hs1, ht1, hq1, hl1, hqu1, hio1, hcur1, hend1⟩ := ih (i + 1) s counter
        (by omega) hprio
      refine ⟨s1, ?_, ?_, ?_, hl1, hqu1, hio1, hcur1, hend1⟩
      · rw [hs1, hdrop, List.countP_cons]
        simp [hw']
      · intro p
        by_cases hip : p = i
        · subst hip
          rw [ht1 p, if_pos (Nat.lt_succ_self p), if_neg (lt_irrefl p)]
          simp [ht, woken, hw']
        · by_cases hpi : p < i
          · rw [ht1 p, if_pos (by omega), if_pos hpi]
          · rw [ht1 p, if_neg (by omega), if_neg hpi]
      · intro j
        rw [hq1 j, List.range'_succ, List.filter_cons]
        simp [moved_at, ht, hw']

/-! ## The ready structure after the head of the highest queue is removed -/

theorem QInv.queue_empty_of_ge {s : str_schedule} (h : QInv s) {j : Nat} (hj : 6 ≤ j) :
    queue s j = [] := by
  by_contra hne
  have := queue_lt_length hne
  rw [h.1] at this
  omega

theorem dequeue_facts {s : str_schedule} (h : QInv s) {n : Nat}
    (hn : get_max_priority_thread s = some n) :
    ∃ f nt, first_nonempty s 6 = some f ∧ s.threads[n]? = some nt ∧
      nt.status = .READY ∧ nt.priority = f ∧
      (∀ j x, x ∈ (s.queues.set f (queue s f).tail).getD j [] ↔ (x ∈ queue s j ∧ x ≠ n)) ∧
      (∀ j, ((s.queues.set f (queue s f).tail).getD j []).Nodup) ∧
      (∀ j, queue s j ≠ [] → j ≤ f) := by
  obtain ⟨hlen, hprio, hc1, hnd, hc3⟩ := h
  obtain ⟨f, rest, hf, hq⟩ := get_max_some hn
  obtain ⟨hf6, hfne, hfmax⟩ := first_nonempty_some hf
  have hnq : n ∈ queue s f := by rw [hq]; exact List.mem_cons_self _ _
  obtain ⟨nt, hnt, hst, hpr⟩ := hc1 f n hnq
  have hndf := hnd f
  rw [hq, List.nodup_cons] at hndf
  refine ⟨f, nt, hf, hnt, hst, hpr, ?_, ?_, ?_⟩
  · intro j x
    rw [getD_set]
    by_cases hjf : f = j
    · subst hjf
      simp only [hlen, hf6, and_self, if_true, hq, List.tail_cons, List.mem_cons]
      constructor
      · intro hx
        exact ⟨Or.inr hx, fun hxn => hndf.1 (hxn ▸ hx)⟩
      · rintro ⟨hx | hx, hne⟩
        · exact absurd hx hne
        · exact hx
    · simp only [hjf, false_and, if_false]
      constructor
      · intro hx
        refine ⟨hx, fun hxn => ?_⟩
        subst hxn
        obtain ⟨t, ht, _, hp⟩ := hc1 j x hx
        rw [hnt] at ht
        cases ht
        exact hjf (hpr.symm.trans hp)
      · exact fun hx => hx.1
  · intro j
    rw [getD_set]
    split
    · rw [hq]
      exact hndf.2
    · exact hnd j
  · intro j hj
    by_contra hlt
    have hj6 : j < 6 := by
      have := queue_lt_length hj
      omega
    exact hj (hfmax j (by omega) hj6)

/-! ## The decision function establishes the invariant -/

theorem run_next_inv {s : str_schedule} (h : QInv s)
    (hst : ∀ (p : Nat) (t : thread), s.threads[p]? = some t →
      t.status ≠ .NEW ∧ t.status ≠ .RUNNING)
    {n : Nat} (hn : get_max_priority_thread s = some n) :
    ∃ s', run_next s (some n) = .ok s' ∧ Inv s' := by
  obtain ⟨f, nt, hf, hnt, hnst, hnpr, hmem, hnd, hmax⟩ := dequeue_facts h hn
  obtain ⟨hlen, hprio, hc1, -, hc3⟩ := h
  have hnlt : n < s.threads.length := (List.getElem?_eq_some.1 hnt).1
  refine ⟨_, run_next_eq hf hnt, ⟨?_, ?_, ?_, ?_, ?_⟩, ?_, ?_, ?_⟩
  · simp [hlen]
  · intro p t hp
    simp only [List.getElem?_set] at hp
    by_cases hpn : n = p
    · subst hpn
      simp only [if_true, hnlt, Option.some.injEq] at hp
      subst hp
      exact hprio n nt hnt
    · simp only [hpn, if_false] at hp
      exact hprio p t hp
  · intro i p hp
    simp only [queue] at hp
    obtain ⟨hp1, hp2⟩ := (hmem i p).1 hp
    obtain ⟨t, ht, hts, htp⟩ := hc1 i p hp1
    refine ⟨t, ?_, hts, htp⟩
    simp only [List.getElem?_set, Ne.symm hp2, if_false]
    exact ht
  · intro i
    exact hnd i
  · intro p t hp hts
    simp only [List.getElem?_set] at hp
    by_cases hpn : n = p
    · subst hpn
      simp only [if_true, hnlt, Option.some.injEq] at hp
      subst hp
      cases hts
    · simp only [hpn, if_false] at hp
      simp only [queue]
      exact (hmem t.priority p).2 ⟨hc3 p t hp hts, Ne.symm hpn⟩
  · intro p t hp
    simp only [List.getElem?_set] at hp
    by_cases hpn : n = p
    · subst hpn
      simp only [if_true, hnlt, Option.some.injEq] at hp
      subst hp
      exact ⟨by simp, fun _ => rfl⟩
    · simp only [hpn, if_false] at hp
      exact ⟨(hst p t hp).1, fun hr => absurd hr (hst p t hp).2⟩
  · intro hcur
    cases hcur
  · intro c hc
    simp only [Option.some.injEq] at hc
    subst hc
    refine ⟨{ nt with status := .RUNNING, semaphore := nt.semaphore + 1 },
      by simp only [List.getElem?_set, if_true, hnlt], Or.inl ⟨rfl, ?_⟩⟩
    intro i hi
    simp only [queue] at hi
    obtain ⟨x, hx⟩ := List.exists_mem_of_ne_nil _ hi
    have hx1 := ((hmem i x).1 hx).1
    rw [hnpr]
    exact hmax i (List.ne_nil_of_mem hx1)

theorem park_inv {s : str_schedule} (h : QInv s) (hs : StatusInv s) {c : Nat} {ct : thread}
    (hcur : s.current_thread = some c) (hc : s.threads[c]? = some ct)
    (hst : ct.status = .TERMINATED ∨ ct.status = .WAITING)
    (hn : get_max_priority_thread s = none) :
    Inv { s with end_semaphore := s.end_semaphore + 1 } := by
  refine ⟨h, hs, ?_, ?_⟩
  · intro hnone
    rw [hcur] at hnone
    cases hnone
  · intro c' hc'
    have : c' = c := by
      have h1 : s.current_thread = some c' := hc'
      rw [hcur] at h1
      exact (Option.some.inj h1).symm
    subst this
    refine ⟨ct, hc, Or.inr ⟨hst.symm, fun i => ?_⟩⟩
    by_cases hi : i < 6
    · exact first_nonempty_none (get_max_none hn) i hi
    · exact h.queue_empty_of_ge (not_lt.1 hi)

theorem continue_inv {s : str_schedule} (h : QInv s) (hs : StatusInv s) {c : Nat} {ct : thread}
    (hcur : s.current_thread = some c) (hc : s.threads[c]? = some ct)
    (hrun : ct.status = .RUNNING) (hmax : ∀ i : Nat, queue s i ≠ [] → i ≤ ct.priority) :
    ∃ s', continue_current s = .ok s' ∧ Inv s' := by
  obtain ⟨hlen, hprio, hc1, hnd, hc3⟩ := h
  have hclt : c < s.threads.length := (List.getElem?_eq_some.1 hc).1
  have hget : ∀ (p : Nat) (t : thread),
      (s.threads.set c { ct with
        rem_time := if ct.rem_time ≤ 0 then s.quantum else ct.rem_time
        status := .RUNNING
        semaphore := ct.semaphore + 1 })[p]? = some t →
      (p = c ∧ t.status = .RUNNING ∧ t.priority = ct.priority) ∨
        (p ≠ c ∧ s.threads[p]? = some t) := by
    intro p t hp
    simp only [List.getElem?_set] at hp
    by_cases hpc : c = p
    · subst hpc
      simp only [if_true, hclt, Option.some.injEq] at hp
      subst hp
      exact Or.inl ⟨rfl, rfl, rfl⟩
    · simp only [hpc, if_false] at hp
      exact Or.inr ⟨Ne.symm hpc, hp⟩
  refine ⟨_, continue_current_eq hcur hc, ⟨hlen, ?_, ?_, hnd, ?_⟩, ?_, ?_, ?_⟩
  · intro p t hp
    rcases hget p t hp with ⟨rfl, -, hpr⟩ | ⟨-, hp'⟩
    · rw [hpr]
      exact hprio p ct hc
    · exact hprio p t hp'
  · intro i p hp
    obtain ⟨t, ht, hts, htp⟩ := hc1 i p hp
    refine ⟨t, ?_, hts, htp⟩
    have hpc : c ≠ p := by
      rintro rfl
      rw [hc] at ht
      cases ht
      rw [hrun] at hts
      cases hts
    simp only [List.getElem?_set, hpc, if_false]
    exact ht
  · intro p t hp hts
    rcases hget p t hp with ⟨-, hr, -⟩ | ⟨-, hp'⟩
    · rw [hr] at hts
      cases hts
    · exact hc3 p t hp' hts
  · intro p t hp
    rcases hget p t hp with ⟨rfl, hr, -⟩ | ⟨-, hp'⟩
    · exact ⟨by rw [hr]; simp, fun _ => hcur⟩
    · exact hs p t hp'
  · intro hnone
    have h1 : s.current_thread = none := hnone
    rw [hcur] at h1
    cases h1
  · intro c' hc'
    have : c' = c := by
      have h1 : s.current_thread = some c' := hc'
      rw [hcur] at h1
      exact (Option.some.inj h1).symm
    subst this
    exact ⟨{ ct with
        rem_time := if ct.rem_time ≤ 0 then s.quantum else ct.rem_time
        status := .RUNNING
        semaphore := ct.semaphore + 1 },
      by simp only [List.getElem?_set, if_true, hclt], Or.inl ⟨rfl, hmax⟩⟩

theorem change_inv {s : str_schedule} (h : QInv s) (hs : StatusInv s) {c n : Nat}
    {ct nt : thread} (hcur : s.current_thread = some c) (hc : s.threads[c]? = some ct)
    (hrun : ct.status = .RUNNING) (hn : get_max_priority_thread s = some n)
    (hnt : s.threads[n]? = some nt) (hle : ct.priority ≤ nt.priority) :
    ∃ s', change_thread s (some n) c = .ok s' ∧ Inv s' := by
  obtain ⟨f, nt', hf, hnt', hnst, hnpr, hmem, hnd', hmax⟩ := dequeue_facts h hn
  rw [hnt] at hnt'
  cases hnt'
  obtain ⟨hlen, hprio, hc1, hnd, hc3⟩ := h
  have hclt : c < s.threads.length := (List.getElem?_eq_some.1 hc).1
  have hnlt : n < s.threads.length := (List.getElem?_eq_some.1 hnt).1
  have hne : n ≠ c := by
    rintro rfl
    rw [hc] at hnt
    cases hnt
    rw [hrun] at hnst
    cases hnst
  have hcp : ct.priority < s.queues.length := by
    have := hprio c ct hc
    simp only [ SO_MAX_PRIO] at this
    omega
  have hcq : ∀ j, c ∉ queue s j := by
    intro j hj
    obtain ⟨t, ht, hts, -⟩ := hc1 j c hj
    rw [hc] at ht
    cases ht
    rw [hrun] at hts
    cases hts
  -- the records of the result
  have hget : ∀ (p : Nat) (t : thread),
      ((s.threads.set c { ct with rem_time := s.quantum, status := .READY }).set n
        { nt with status := .RUNNING, semaphore := nt.semaphore + 1 })[p]? = some t →
      (p = n ∧ t.status = .RUNNING ∧ t.priority = nt.priority) ∨
      (p = c ∧ t.status = .READY ∧ t.priority = ct.priority) ∨
      (p ≠ n ∧ p ≠ c ∧ s.threads[p]? = some t) := by
    intro p t hp
    simp only [List.getElem?_set, List.length_set] at hp
    by_cases hpn : n = p
    · subst hpn
      simp only [if_true, hnlt, Option.some.injEq] at hp
      subst hp
      exact Or.inl ⟨rfl, rfl, rfl⟩
    · simp only [hpn, if_false] at hp
      by_cases hpc : c = p
      · subst hpc
        simp only [if_true, hclt, Option.some.injEq] at hp
        subst hp
        exact Or.inr (Or.inl ⟨rfl, rfl, rfl⟩)
      · simp only [hpc, if_false] at hp
        exact Or.inr (Or.inr ⟨Ne.symm hpn, Ne.symm hpc, hp⟩)
  -- the queues of the result
  have hqueue : ∀ j x, x ∈ ((s.queues.set f (queue s f).tail).set ct.priority
        ((s.queues.set f (queue s f).tail).getD ct.priority [] ++ [c])).getD j [] ↔
      ((x ∈ queue s j ∧ x ≠ n) ∨ (x = c ∧ j = ct.priority)) := by
    intro j x
    rw [getD_set]
    by_cases hj : ct.priority = j
    · subst hj
      simp only [List.length_set, hcp, and_self, if_true, List.mem_append, hmem,
        List.mem_singleton, and_true]
    · simp only [hj, false_and, if_false, hmem]
      constructor
      · exact fun hx => Or.inl hx
      · rintro (hx | ⟨-, hx⟩)
        · exact hx
        · exact absurd hx.symm hj
  refine ⟨_, change_thread_eq hf hnt hc hne hcp, ⟨?_, ?_, ?_, ?_, ?_⟩, ?_, ?_, ?_⟩
  · simp [hlen]
  · intro p t hp
    rcases hget p t hp with ⟨rfl, -, hpr⟩ | ⟨rfl, -, hpr⟩ | ⟨-, -, hp'⟩
    · rw [hpr]; exact hprio p nt hnt
    · rw [hpr]; exact hprio p ct hc
    · exact hprio p t hp'
  · intro i p hp
    simp only [queue] at hp
    rcases (hqueue i p).1 hp with ⟨hp1, hp2⟩ | ⟨rfl, rfl⟩
    · obtain ⟨t, ht, hts, htp⟩ := hc1 i p hp1
      have hpc : p ≠ c := fun hpc => hcq i (hpc ▸ hp1)
      refine ⟨t, ?_, hts, htp⟩
      simp only [List.getElem?_set, Ne.symm hp2, Ne.symm hpc, if_false]
      exact ht
    · refine ⟨{ ct with rem_time := s.quantum, status := .READY }, ?_, rfl, rfl⟩
      simp only [List.getElem?_set, hne, if_false, if_true, hclt]
  · intro j
    simp only [queue]
    rw [getD_set]
    split
    · refine List.Nodup.append (hnd' _) (List.nodup_singleton c) ?_
      intro x hx1 hx2
      rw [List.mem_singleton] at hx2
      subst hx2
      exact hcq _ ((hmem _ x).1 hx1).1
    · exact hnd' j
  · intro p t hp hts
    refine (hqueue t.priority p).2 ?_
    rcases hget p t hp with ⟨-, hr, -⟩ | ⟨rfl, -, hpr⟩ | ⟨hpn, -, hp'⟩
    · rw [hr] at hts
      cases hts
    · exact Or.inr ⟨rfl, hpr⟩
    · exact Or.inl ⟨hc3 p t hp' hts, hpn⟩
  · intro p t hp
    rcases hget p t hp with ⟨rfl, hr, -⟩ | ⟨rfl, hr, -⟩ | ⟨-, hpc, hp'⟩
    · exact ⟨by rw [hr]; simp, fun _ => rfl⟩
    · exact ⟨by rw [hr]; simp, fun h1 => by rw [hr] at h1; cases h1⟩
    · refine ⟨(hs p t hp').1, fun h1 => ?_⟩
      have := (hs p t hp').2 h1
      rw [hcur] at this
      exact absurd (Option.some.inj this).symm hpc
  · intro hnone
    cases hnone
  · intro c' hc'
    simp only [Option.some.injEq] at hc'
    subst hc'
    refine ⟨{ nt with status := .RUNNING, semaphore := nt.semaphore + 1 },
      by simp only [List.getElem?_set, List.length_set, if_true, hnlt], Or.inl ⟨rfl, ?_⟩⟩
    intro i hi
    simp only [queue] at hi
    obtain ⟨x, hx⟩ := List.exists_mem_of_ne_nil _ hi
    rcases (hqueue i x).1 hx with ⟨hx1, -⟩ | ⟨-, rfl⟩
    · show i ≤ nt.priority
      rw [hnpr]
      exact hmax i (List.ne_nil_of_mem hx1)
    · exact hle

theorem status_cases (st : Status) (h1 : st ≠ .NEW) (h2 : st ≠ .READY)
    (h3 : ¬ (st = .TERMINATED ∨ st = .WAITING)) : st = .RUNNING := by
  cases st <;> simp_all

theorem check_scheduler_inv {s : str_schedule} (h : PreInv s) :
    ∃ s', check_scheduler s = .ok s' ∧ Inv s' := by
  obtain ⟨hq, hs, hnone, hsome⟩ := h
  cases hcur : s.current_thread with
  | none =>
    cases hn : get_max_priority_thread s with
    | none => exact absurd hn (hnone hcur)
    | some n =>
      rw [check_none hcur, hn]
      refine run_next_inv hq (fun p t hp => ⟨(hs p t hp).1, fun hr => ?_⟩) hn
      have := (hs p t hp).2 hr
      rw [hcur] at this
      cases this
  | some c =>
    obtain ⟨ct, hc, hnr⟩ := hsome c hcur
    by_cases hst : ct.status = .TERMINATED ∨ ct.status = .WAITING
    · cases hn : get_max_priority_thread s with
      | none =>
        exact ⟨_, check_parked_none hcur hc hst hn, park_inv hq hs hcur hc hst hn⟩
      | some n =>
        rw [check_parked_next hcur hc hst hn]
        refine run_next_inv hq (fun p t hp => ⟨(hs p t hp).1, fun hr => ?_⟩) hn
        have := (hs p t hp).2 hr
        rw [hcur] at this
        cases this
        rw [hc] at hp
        cases hp
        rcases hst with h1 | h1 <;> rw [hr] at h1 <;> cases h1
    · have hrun : ct.status = .RUNNING := status_cases _ (hs c ct hc).1 hnr hst
      cases hn : get_max_priority_thread s with
      | none =>
        rw [check_running_none hcur hc hst hn]
        refine continue_inv hq hs hcur hc hrun (fun i hi => ?_)
        exfalso
        apply hi
        by_cases hi6 : i < 6
        · exact first_nonempty_none (get_max_none hn) i hi6
        · exact hq.queue_empty_of_ge (not_lt.1 hi6)
      | some n =>
        obtain ⟨f, nt, hf, hnt, -, hnpr, -, -, hmax⟩ := dequeue_facts hq hn
        rw [check_running_next hcur hc hst hn hnt]
        split
        · rename_i hcond
          refine change_inv hq hs hcur hc hrun hn hnt ?_
          rcases hcond with h1 | h1
          · exact Nat.le_of_lt h1
          · exact Nat.le_of_eq h1.1.symm
        · rename_i hcond
          refine continue_inv hq hs hcur hc hrun (fun i hi => ?_)
          have h1 := hmax i hi
          have h2 : ¬ nt.priority > ct.priority := fun h => hcond (Or.inl h)
          omega

/-- Writing the record of the current thread, keeping its priority and a
status other than `NEW` and `READY`, keeps what the decision function needs. -/
theorem store_current_preinv {s : str_schedule} (h : PreInv s) {c : Nat} {t t' : thread}
    (hcur : s.current_thread = some c) (hc : s.threads[c]? = some t)
    (hp : t'.priority = t.priority) (h1 : t'.status ≠ .NEW) (h2 : t'.status ≠ .READY) :
    PreInv (store s c t') := by
  obtain ⟨⟨hlen, hprio, hc1, hnd, hc3⟩, hs, hnone, hsome⟩ := h
  have hclt : c < s.threads.length := (List.getElem?_eq_some.1 hc).1
  obtain ⟨ct, hct, hnr⟩ := hsome c hcur
  rw [hc] at hct
  cases hct
  have hget : ∀ (p : Nat) (x : thread), (store s c t').threads[p]? = some x →
      (p = c ∧ x = t') ∨ (p ≠ c ∧ s.threads[p]? = some x) := by
    intro p x hx
    simp only [store_threads, List.getElem?_set] at hx
    by_cases hpc : c = p
    · subst hpc
      simp only [if_true, hclt, Option.some.injEq] at hx
      exact Or.inl ⟨rfl, hx.symm⟩
    · simp only [hpc, if_false] at hx
      exact Or.inr ⟨Ne.symm hpc, hx⟩
  refine ⟨⟨hlen, ?_, ?_, hnd, ?_⟩, ?_, ?_, ?_⟩
  · intro p x hx
    rcases hget p x hx with ⟨rfl, rfl⟩ | ⟨-, hx'⟩
    · rw [hp]
      exact hprio p t hc
    · exact hprio p x hx'
  · intro i p hpq
    obtain ⟨x, hx, hxs, hxp⟩ := hc1 i p hpq
    refine ⟨x, ?_, hxs, hxp⟩
    have hpc : c ≠ p := by
      rintro rfl
      rw [hc] at hx
      cases hx
      exact hnr hxs
    simp only [store_threads, List.getElem?_set, hpc, if_false]
    exact hx
  · intro p x hx hxs
    rcases hget p x hx with ⟨rfl, rfl⟩ | ⟨-, hx'⟩
    · exact absurd hxs h2
    · exact hc3 p x hx' hxs
  · intro p x hx
    rcases hget p x hx with ⟨rfl, rfl⟩ | ⟨-, hx'⟩
    · exact ⟨h1, fun _ => hcur⟩
    · exact hs p x hx'
  · intro hn
    have h3 : s.current_thread = none := hn
    rw [hcur] at h3
    cases h3
  · intro c' hc'
    have h3 : s.current_thread = some c' := hc'
    rw [hcur] at h3
    cases h3
    exact ⟨t', by simp only [store_threads, List.getElem?_set, if_true, hclt], h2⟩

theorem Inv.preInv {s : str_schedule} (h : Inv s) {c : Nat}
    (hcur : s.current_thread = some c) : PreInv s := by
  obtain ⟨hq, hs, -, hsome⟩ := h
  refine ⟨hq, hs, fun hn => ?_, fun c' hc' => ?_⟩
  · rw [hcur] at hn
    cases hn
  · obtain ⟨ct, hct, hcase⟩ := hsome c' hc'
    refine ⟨ct, hct, fun hr => ?_⟩
    rcases hcase with ⟨h1, -⟩ | ⟨h1 | h1, -⟩ <;> rw [hr] at h1 <;> cases h1

theorem exec_body_inv {s : str_schedule} (h : PreInv s) {c : Nat}
    (hcur : s.current_thread = some c) : ∃ s', exec_body s = .ok s' ∧ Inv s' := by
  obtain ⟨ct, hc, hnr⟩ := h.2.2.2 c hcur
  rw [exec_body_eq hcur hc]
  exact check_scheduler_inv
    (store_current_preinv h hcur hc rfl (h.2.1 c ct hc).1 hnr)

/-! ## The API functions keep the invariant -/

theorem get_append_single {l : List thread} {x y : thread} {i : Nat} :
    (l ++ [x])[i]? = some y ↔ (l[i]? = some y ∨ (i = l.length ∧ y = x)) := by
  by_cases hi : i < l.length
  · rw [List.getElem?_append_left hi]
    constructor
    · exact fun h => Or.inl h
    · rintro (h | ⟨h, -⟩)
      · exact h
      · omega
  · rw [List.getElem?_append_right (not_lt.1 hi), List.getElem?_eq_none (not_lt.1 hi)]
    by_cases hi2 : i = l.length
    · subst hi2
      simp [eq_comm]
    · have : i - l.length ≠ 0 := by omega
      obtain ⟨k, hk⟩ := Nat.exists_eq_succ_of_ne_zero this
      simp [hk, hi2]

/-- The scheduler that `so_fork` hands to the decision function. -/
theorem fork_entry_eq {s : str_schedule} (f p : Nat) (hp : p < s.queues.length) :
    (enqueue (add_thread s (init_thread s f p)) s.threads.length >>= fun s2 =>
      pthread_create s2 s.threads.length) =
    .ok { s with
      queues := s.queues.set p (queue s p ++ [s.threads.length])
      threads := s.threads ++ [{ init_thread s f p with
        status := .READY, thread_id := s.threads.length + 1 }] } := by
  have h1 : (add_thread s (init_thread s f p)).threads[s.threads.length]? =
      some (init_thread s f p) := by simp [add_thread]
  have h2 : (init_thread s f p).priority < (add_thread s (init_thread s f p)).queues.length := hp
  rw [enqueue_eq h1 h2]
  simp [pthread_create, load, add_thread, store, queue, init_thread]

theorem fork_entry_preinv {s : str_schedule} (h : Inv s) (f p : Nat) (hp : p ≤ SO_MAX_PRIO) :
    PreInv { s with
      queues := s.queues.set p (queue s p ++ [s.threads.length])
      threads := s.threads ++ [{ init_thread s f p with
        status := .READY, thread_id := s.threads.length + 1 }] } := by
  obtain ⟨⟨hlen, hprio, hc1, hnd, hc3⟩, hs, hnone, hsome⟩ := h
  have hp6 : p < s.queues.length := by
    simp only [ SO_MAX_PRIO] at hp
    omega
  have hqueue : ∀ j x, x ∈ (s.queues.set p (queue s p ++ [s.threads.length])).getD j [] ↔
      (x ∈ queue s j ∨ (x = s.threads.length ∧ j = p)) := by
    intro j x
    rw [getD_set]
    by_cases hj : p = j
    · subst hj
      simp [hp6]
    · simp only [hj, false_and, if_false]
      constructor
      · exact fun hx => Or.inl hx
      · rintro (hx | ⟨-, hx⟩)
        · exact hx
        · exact absurd hx.symm hj
  have hvalid : ∀ j, s.threads.length ∉ queue s j := by
    intro j hj
    obtain ⟨t, ht, -⟩ := hc1 j _ hj
    have := (List.getElem?_eq_some.1 ht).1
    omega
  refine ⟨⟨?_, ?_, ?_, ?_, ?_⟩, ?_, ?_, ?_⟩
  · simp [hlen]
  · intro x t hx
    rcases get_append_single.1 hx with hx' | ⟨-, rfl⟩
    · exact hprio x t hx'
    · exact hp
  · intro i x hx
    rcases (hqueue i x).1 hx with hx1 | ⟨rfl, rfl⟩
    · obtain ⟨t, ht, hts, htp⟩ := hc1 i x hx1
      exact ⟨t, get_append_single.2 (Or.inl ht), hts, htp⟩
    · exact ⟨_, get_append_single.2 (Or.inr ⟨rfl, rfl⟩), rfl, rfl⟩
  · intro j
    show ((s.queues.set p (queue s p ++ [s.threads.length])).getD j []).Nodup
    rw [getD_set]
    split
    · refine List.Nodup.append (hnd p) (List.nodup_singleton _) ?_
      intro x hx1 hx2
      rw [List.mem_singleton] at hx2
      subst hx2
      exact hvalid p hx1
    · exact hnd j
  · intro x t hx hts
    refine (hqueue t.priority x).2 ?_
    rcases get_append_single.1 hx with hx' | ⟨rfl, rfl⟩
    · exact Or.inl (hc3 x t hx' hts)
    · exact Or.inr ⟨rfl, rfl⟩
  · intro x t hx
    rcases get_append_single.1 hx with hx' | ⟨rfl, rfl⟩
    · exact hs x t hx'
    · exact ⟨by simp, fun hr => by cases hr⟩
  · intro _ hn
    have hfn := first_nonempty_none (get_max_none hn) p (by rw [hlen] at hp6; exact hp6)
    have : s.threads.length ∈ (s.queues.set p (queue s p ++ [s.threads.length])).getD p [] :=
      (hqueue p _).2 (Or.inr ⟨rfl, rfl⟩)
    have hfn' : (s.queues.set p (queue s p ++ [s.threads.length])).getD p [] = [] := hfn
    rw [hfn'] at this
    cases this
  · intro c hc
    obtain ⟨ct, hct, hcase⟩ := hsome c hc
    refine ⟨ct, get_append_single.2 (Or.inl hct), fun hr => ?_⟩
    rcases hcase with ⟨h1, -⟩ | ⟨h1 | h1, -⟩ <;> rw [hr] at h1 <;> cases h1

theorem so_fork_inv {s : str_schedule} (h : Inv s) (f p : Nat) (hp : p ≤ SO_MAX_PRIO) :
    ∃ tid s', so_fork (some s) (some f) p = .ok (tid, some s') ∧ Inv s' := by
  have hp6 : p < s.queues.length := by
    rw [h.1.1]
    simp only [ SO_MAX_PRIO] at hp
    omega
  have hpre := fork_entry_preinv h f p hp
  have hprefix := fork_entry_eq (s := s) f p hp6
  have hnotinv : ¬ (p > SO_MAX_PRIO ∨ (some f : Option Nat) = none) := by
    simp only [reduceCtorEq, or_false]
    omega
  have key : ∀ s3 : str_schedule, PreInv s3 → s.threads.length < s3.threads.length →
      ∃ s4, (if s3.current_thread = none then check_scheduler s3 else exec_body s3) = .ok s4 ∧
        Inv s4 ∧ ∃ t, load s4 s.threads.length = .ok t := by
    intro s3 h3 hlt
    have hex : ∃ s4, (if s3.current_thread = none then check_scheduler s3 else exec_body s3) =
        .ok s4 ∧ Inv s4 := by
      cases hcur : s3.current_thread with
      | none => simpa using check_scheduler_inv h3
      | some c => simpa using exec_body_inv h3 hcur
    obtain ⟨s4, hs4, hi4⟩ := hex
    have hfr : Frame s3 s4 := by
      split at hs4
      · exact check_scheduler_frame hs4
      · exact exec_body_frame hs4
    obtain ⟨t3, ht3⟩ : ∃ t3, s3.threads[s.threads.length]? = some t3 :=
      ⟨_, List.getElem?_eq_getElem hlt⟩
    obtain ⟨t4, ht4, -⟩ := hfr.get ht3
    exact ⟨s4, hs4, hi4, t4, load_of_get ht4⟩
  obtain ⟨s4, hs4, hi4, t, ht⟩ := key _ hpre (by simp)
  refine ⟨t.thread_id, s4, ?_, hi4⟩
  unfold so_fork
  rw [if_neg hnotinv]
  simp only
  have hbind : ∀ (k : str_schedule → Except Fault (Nat × Option str_schedule)),
      (enqueue (add_thread s (init_thread s f p)) s.threads.length >>= fun s2 =>
        pthread_create s2 s.threads.length >>= k) =
      ((enqueue (add_thread s (init_thread s f p)) s.threads.length >>= fun s2 =>
        pthread_create s2 s.threads.length) >>= k) := by
    intro k
    cases enqueue (add_thread s (init_thread s f p)) s.threads.length <;> rfl
  rw [hbind, hprefix]
  simp only [ok_bind, hs4, ht, pure_ok]

theorem so_exec_inv {s : str_schedule} (h : Inv s) {c : Nat}
    (hcur : s.current_thread = some c) :
    ∃ s', so_exec (some s) = .ok (some s') ∧ Inv s' := by
  obtain ⟨s', hs', hi⟩ := exec_body_inv (h.preInv hcur) hcur
  exact ⟨s', by simp [so_exec, hs'], hi⟩

theorem so_wait_inv {s : str_schedule} (h : Inv s) {c : Nat}
    (hcur : s.current_thread = some c) (io : Nat) :
    ∃ r s', so_wait (some s) io = .ok (r, some s') ∧ Inv s' := by
  by_cases hio : io ≥ s.io
  · exact ⟨-1, s, by simp [so_wait, hio], h⟩
  · have hpre := h.preInv hcur
    obtain ⟨ct, hc, -⟩ := hpre.2.2.2 c hcur
    have hpre1 : PreInv (store s c { ct with status := .WAITING, io_device := io }) :=
      store_current_preinv hpre hcur hc rfl (by simp) (by simp)
    obtain ⟨s', hs', hi⟩ := exec_body_inv hpre1 hcur
    exact ⟨0, s', by simp [so_wait, hio, hcur, load_of_get hc, hs'], hi⟩

theorem start_thread_return_inv {s : str_schedule} (h : Inv s) {c : Nat}
    (hcur : s.current_thread = some c) :
    ∃ s', start_thread_return s c = .ok s' ∧ Inv s' := by
  have hpre := h.preInv hcur
  obtain ⟨ct, hc, -⟩ := hpre.2.2.2 c hcur
  have hpre1 : PreInv (store s c { ct with status := .TERMINATED }) :=
    store_current_preinv hpre hcur hc rfl (by simp) (by simp)
  obtain ⟨s', hs', hi⟩ := check_scheduler_inv hpre1
  exact ⟨s', by simp [start_thread_return, load_of_get hc, hs'], hi⟩

theorem woken_priority (io : Nat) (t : thread) : (woken io t).priority = t.priority := by
  unfold woken
  split <;> rfl

theorem woken_of_waits {io : Nat} {t : thread} (h : waits_on io t = true) :
    (woken io t).status = .READY := by
  simp [woken, h]

theorem woken_of_not_waits {io : Nat} {t : thread} (h : waits_on io t = false) :
    woken io t = t := by
  simp [woken, h]

theorem waits_on_status {io : Nat} {t : thread} (h : waits_on io t = true) :
    t.status = .WAITING := by
  simp only [waits_on, decide_eq_true_eq] at h
  exact h.2

theorem not_waits_of_status {io : Nat} {t : thread} (h : t.status ≠ .WAITING) :
    waits_on io t = false := by
  cases hw : waits_on io t with
  | false => rfl
  | true => exact absurd (waits_on_status hw) h

/-- The scan of `so_signal` on a consistent scheduler with a `RUNNING` current
thread: what it returns and what the decision function then finds. -/
theorem signal_scan_preinv {s : str_schedule} (h : Inv s) {c : Nat} {ct : thread}
    (hcur : s.current_thread = some c) (hc : s.threads[c]? = some ct)
    (hrun : ct.status = .RUNNING) (io : Nat) :
    ∃ s1, signal_scan io s.threads.length 0 s 0 =
        .ok (s1, s.threads.countP (waits_on io)) ∧
      s1.threads = s.threads.map (woken io) ∧
      (∀ j, queue s1 j = queue s j ++
        (List.range s.threads.length).filter (moved_at s io j)) ∧
      s1.queues.length = s.queues.length ∧ s1.quantum = s.quantum ∧ s1.io = s.io ∧
      s1.current_thread = s.current_thread ∧ s1.end_semaphore = s.end_semaphore ∧
      PreInv s1 := by
  obtain ⟨⟨hlen, hprio, hc1, hnd, hc3⟩, hs, hnone, hsome⟩ := h
  obtain ⟨s1, hs1, ht1, hq1, hl1, hqu1, hio1, hcur1, hend1⟩ :=
    signal_scan_spec io s.threads.length 0 s 0 (by simp) (by
      intro p t hp
      have := hprio p t hp
      simp only [ SO_MAX_PRIO] at this
      omega)
  have hget : ∀ p : Nat, s1.threads[p]? = (s.threads[p]?).map (woken io) := by
    intro p
    rw [ht1 p, if_neg (Nat.not_lt_zero p)]
  have hthreads : s1.threads = s.threads.map (woken io) := by
    apply List.ext_getElem?
    intro p
    rw [hget p, List.getElem?_map]
  have hget' : ∀ (p : Nat) (t1 : thread), s1.threads[p]? = some t1 →
      ∃ t, s.threads[p]? = some t ∧ t1 = woken io t := by
    intro p t1 hp
    rw [hget p] at hp
    cases hsp : s.threads[p]? with
    | none => simp [hsp] at hp
    | some t =>
      simp only [hsp, Option.map_some', Option.some.injEq] at hp
      exact ⟨t, rfl, hp.symm⟩
  have hqueue : ∀ j x, x ∈ queue s1 j ↔
      (x ∈ queue s j ∨ ∃ t, s.threads[x]? = some t ∧ waits_on io t = true ∧ t.priority = j) := by
    intro j x
    rw [hq1 j, List.mem_append, List.mem_filter, List.mem_range'_1]
    constructor
    · rintro (hx | ⟨-, hx⟩)
      · exact Or.inl hx
      · right
        unfold moved_at at hx
        cases hsx : s.threads[x]? with
        | none => simp [hsx] at hx
        | some t =>
          simp only [hsx, Bool.and_eq_true, decide_eq_true_eq] at hx
          exact ⟨t, rfl, hx.1, hx.2⟩
    · rintro (hx | ⟨t, ht, hw, hp⟩)
      · exact Or.inl hx
      · right
        have := (List.getElem?_eq_some.1 ht).1
        refine ⟨⟨Nat.zero_le _, by omega⟩, ?_⟩
        simp [moved_at, ht, hw, hp]
  refine ⟨s1, ?_, hthreads, ?_, hl1, hqu1, hio1, hcur1, hend1, ⟨?_, ?_, ?_, ?_, ?_⟩, ?_, ?_, ?_⟩
  · rw [hs1]
    simp
  · intro j
    rw [hq1 j, List.range_eq_range']
  · rw [hl1, hlen]
  · intro p t1 hp
    obtain ⟨t, ht, rfl⟩ := hget' p t1 hp
    rw [woken_priority]
    exact hprio p t ht
  · intro i p hp
    rcases (hqueue i p).1 hp with hp1 | ⟨t, ht, hw, hpr⟩
    · obtain ⟨t, ht, hts, htp⟩ := hc1 i p hp1
      refine ⟨t, ?_, hts, htp⟩
      rw [hget p, ht, Option.map_some', woken_of_not_waits]
      exact not_waits_of_status (by rw [hts]; simp)
    · refine ⟨woken io t, ?_, woken_of_waits hw, (woken_priority io t).trans hpr⟩
      rw [hget p, ht, Option.map_some']
  · intro j
    rw [hq1 j]
    refine List.Nodup.append (hnd j) ((List.nodup_range' _ _).filter _) ?_
    intro x hx1 hx2
    obtain ⟨t, ht, hts, -⟩ := hc1 j x hx1
    rw [List.mem_filter] at hx2
    have hm := hx2.2
    simp only [moved_at, ht, Bool.and_eq_true] at hm
    have := waits_on_status hm.1
    rw [hts] at this
    cases this
  · intro p t1 hp hts
    obtain ⟨t, ht, rfl⟩ := hget' p t1 hp
    rw [hqueue, woken_priority]
    cases hw : waits_on io t with
    | true => exact Or.inr ⟨t, ht, hw, rfl⟩
    | false =>
      rw [woken_of_not_waits hw] at hts
      exact Or.inl (hc3 p t ht hts)
  · intro p t1 hp
    obtain ⟨t, ht, rfl⟩ := hget' p t1 hp
    rw [hcur1]
    cases hw : waits_on io t with
    | true =>
      rw [woken_of_waits hw]
      exact ⟨by simp, fun hr => by cases hr⟩
    | false =>
      rw [woken_of_not_waits hw]
      exact hs p t ht
  · intro hn
    rw [hcur1, hcur] at hn
    cases hn
  · intro c' hc'
    rw [hcur1, hcur] at hc'
    cases hc'
    refine ⟨ct, ?_, by rw [hrun]; simp⟩
    rw [hget c, hc, Option.map_some', woken_of_not_waits]
    exact not_waits_of_status (by rw [hrun]; simp)

theorem so_signal_inv {s : str_schedule} (h : Inv s) (hr : running s) (io : Nat) :
    ∃ r s', so_signal (some s) io = .ok (r, some s') ∧ Inv s' := by
  by_cases hio : io ≥ s.io
  · exact ⟨-1, s, by simp [so_signal, hio], h⟩
  · obtain ⟨c, ct, hcur, hc, hrun⟩ := hr
    obtain ⟨s1, hs1, -, -, -, -, -, hcur1, -, hpre⟩ := signal_scan_preinv h hcur hc hrun io
    obtain ⟨s', hs', hi⟩ := exec_body_inv hpre (hcur1.trans hcur)
    exact ⟨(s.threads.countP (waits_on io) : Nat), s',
      by simp [so_signal, hio, hs1, hs'], hi⟩

theorem so_init_inv {M q io : Nat} {s : str_schedule}
    (h : so_init M none q io = (0, some s)) : Inv s := by
  unfold so_init at h
  split at h
  · simp at h
  · simp only [Prod.mk.injEq, Option.some.injEq, true_and] at h
    subst h
    have hq : ∀ i : Nat, queue (str_schedule.mk [] (List.replicate 6 []) q io none 0) i = [] := by
      intro i
      simp only [queue, List.getD_eq_getElem?_getD, List.getElem?_replicate]
      split <;> rfl
    refine ⟨⟨by simp, ?_, ?_, ?_, ?_⟩, ?_, fun _ => rfl, ?_⟩
    · intro p t hp
      simp at hp
    · intro i p hp
      rw [hq i] at hp
      cases hp
    · intro i
      rw [hq i]
      exact List.nodup_nil
    · intro p t hp
      simp at hp
    · intro p t hp
      simp at hp
    · intro c hc
      cases hc

/-- Every reachable scheduler satisfies the invariant. -/
theorem inv_of_reachable {M : Nat} {s : str_schedule} (h : Reachable M s) : Inv s := by
  induction h with
  | init q io s h => exact so_init_inv h
  | fork s func priority tid s' _ _ hf ih =>
    by_cases hbad : priority > SO_MAX_PRIO ∨ func = none
    · simp only [so_fork, hbad, if_true, pure_ok, Except.ok.injEq, Prod.mk.injEq,
        Option.some.injEq] at hf
      rw [← hf.2]
      exact ih
    · cases func with
      | none => simp at hbad
      | some f =>
        obtain ⟨tid', s'', hs'', hi⟩ := so_fork_inv ih f priority (by
          have : ¬ priority > SO_MAX_PRIO := fun h => hbad (Or.inl h)
          omega)
        rw [hs''] at hf
        simp only [Except.ok.injEq, Prod.mk.injEq, Option.some.injEq] at hf
        rw [← hf.2]
        exact hi
  | exec s s' _ hr he ih =>
    obtain ⟨c, -, hcur, -, -⟩ := hr
    obtain ⟨s'', hs'', hi⟩ := so_exec_inv ih hcur
    rw [hs''] at he
    simp only [Except.ok.injEq, Option.some.injEq] at he
    rw [← he]
    exact hi
  | wait s io r s' _ hr hw ih =>
    obtain ⟨c, -, hcur, -, -⟩ := hr
    obtain ⟨r', s'', hs'', hi⟩ := so_wait_inv ih hcur io
    rw [hs''] at hw
    simp only [Except.ok.injEq, Prod.mk.injEq, Option.some.injEq] at hw
    rw [← hw.2]
    exact hi
  | signal s io r s' _ hr hsig ih =>
    obtain ⟨r', s'', hs'', hi⟩ := so_signal_inv ih hr io
    rw [hs''] at hsig
    simp only [Except.ok.injEq, Prod.mk.injEq, Option.some.injEq] at hsig
    rw [← hsig.2]
    exact hi
  | terminate s c s' _ _ hcur ht ih =>
    obtain ⟨s'', hs'', hi⟩ := start_thread_return_inv ih hcur
    rw [hs''] at ht
    simp only [Except.ok.injEq] at ht
    rw [← ht]
    exact hi

/-- C7: in every reachable scheduler whose current thread is `RUNNING`, no
thread held by a priority queue has a priority above the current thread's. -/
theorem highest_priority_runs (SO_MAX_NUM_EVENTS : Nat) (s : str_schedule)
    (h : Reachable SO_MAX_NUM_EVENTS s) (c : Nat) (ct : thread)
    (hcur : s.current_thread = some c) (hc : s.threads[c]? = some ct)
    (hrun : ct.status = .RUNNING) (i p : Nat) (t : thread) (hp : p ∈ queue s i)
    (ht : s.threads[p]? = some t) : t.priority ≤ ct.priority := by
  obtain ⟨⟨-, -, hc1, -, -⟩, -, -, hsome⟩ := inv_of_reachable h
  obtain ⟨ct', hct', hcase⟩ := hsome c hcur
  rw [hc] at hct'
  cases hct'
  obtain ⟨t', ht', -, hpr⟩ := hc1 i p hp
  rw [ht] at ht'
  cases ht'
  rcases hcase with ⟨-, hmax⟩ | ⟨h1 | h1, -⟩
  · rw [hpr]
    exact hmax i (List.ne_nil_of_mem hp)
  · rw [hrun] at h1
    cases h1
  · rw [hrun] at h1
    cases h1

/-- C10: in every reachable scheduler a `READY` thread is held exactly once by
the queue of its priority and by no other queue, a thread of any other status
(`RUNNING`, `NEW`, `WAITING`, `TERMINATED`) is held by no queue, and the current
thread is held by no queue. -/
theorem ready_structure (SO_MAX_NUM_EVENTS : Nat) (s : str_schedule)
    (h : Reachable SO_MAX_NUM_EVENTS s) (p : Nat) (t : thread)
    (hp : s.threads[p]? = some t) :
    (t.status = .READY →
      (queue s t.priority).count p = 1 ∧ ∀ i : Nat, i ≠ t.priority → p ∉ queue s i) ∧
    (t.status ≠ .READY → ∀ i : Nat, p ∉ queue s i) ∧
    (s.current_thread = some p → ∀ i : Nat, p ∉ queue s i) := by
  obtain ⟨⟨-, -, hc1, hnd, hc3⟩, -, -, hsome⟩ := inv_of_reachable h
  have hnot : t.status ≠ .READY → ∀ i : Nat, p ∉ queue s i := by
    intro hst i hi
    obtain ⟨t', ht', hts, -⟩ := hc1 i p hi
    rw [hp] at ht'
    cases ht'
    exact hst hts
  refine ⟨fun hst => ⟨?_, ?_⟩, hnot, ?_⟩
  · exact List.count_eq_one_of_mem (hnd _) (hc3 p t hp hst)
  · intro i hi hpi
    obtain ⟨t', ht', -, hpr⟩ := hc1 i p hpi
    rw [hp] at ht'
    cases ht'
    exact hi hpr.symm
  · intro hcur
    obtain ⟨ct, hct, hcase⟩ := hsome p hcur
    rw [hp] at hct
    cases hct
    apply hnot
    rcases hcase with ⟨h1, -⟩ | ⟨h1 | h1, -⟩ <;> rw [h1] <;> simp

/-! ## The example schedulers are reachable -/

theorem example_fresh_reachable : Reachable 256 example_fresh :=
  Reachable.init 2 1 example_fresh rfl

theorem example_first_reachable : Reachable 256 example_first :=
  Reachable.fork example_fresh (some 7) 1 1 example_first example_fresh_reachable
    (Or.inl rfl) rfl

theorem example_first_running : running example_first := ⟨0, example_A, rfl, rfl, rfl⟩

theorem example_preempted_reachable : Reachable 256 example_preempted :=
  Reachable.fork example_first (some 8) 2 2 example_preempted example_first_reachable
    (Or.inr example_first_running) rfl

theorem example_waiting_reachable : Reachable 256 example_waiting :=
  Reachable.wait example_preempted 0 0 example_waiting example_preempted_reachable
    ⟨1, example_B, rfl, rfl, rfl⟩ rfl

theorem example_signalled_reachable : Reachable 256 example_signalled :=
  Reachable.signal example_waiting 0 1 example_signalled example_waiting_reachable
    ⟨0, { example_A with semaphore := 2 }, rfl, rfl, rfl⟩ rfl

theorem example_last_unit_reachable : Reachable 256 example_last_unit :=
  Reachable.fork
    { threads := [], queues := [[], [], [], [], [], []], quantum := 1, io := 0,
      current_thread := none, end_semaphore := 0 }
    (some 7) 1 1 example_last_unit (Reachable.init 1 0 _ rfl) (Or.inl rfl) rfl

theorem so_fork_first_witness :
    so_fork (some example_fresh) (some 7) 1 = .ok (1, some example_first) :=
  (so_fork_first example_fresh 7 1 (by decide) rfl rfl rfl).1

theorem so_wait_contract_witness :
    example_preempted.io ≤ 0 ∨ ∃ s' t', so_wait (some example_preempted) 0 = .ok (0, some s') ∧
      s'.threads[1]? = some t' ∧
      t' = { example_B with
        status := .WAITING
        io_device := 0
        rem_time := (example_B.rem_time + UINT_RANGE - 1) % UINT_RANGE } ∧
      (0 < example_B.rem_time ∧ example_B.rem_time < UINT_RANGE →
        t'.rem_time + 1 = example_B.rem_time) ∧
      ∀ i, 1 ∉ queue s' i :=
  (so_wait_contract example_preempted 1 example_B 0 rfl rfl (by decide)).2

theorem highest_priority_runs_witness :
    ({ example_A with status := .READY } : thread).priority ≤ example_B.priority :=
  highest_priority_runs 256 example_preempted example_preempted_reachable 1 example_B
    rfl rfl rfl 1 0 { example_A with status := .READY } (by decide) rfl

theorem ready_structure_witness :
    (Status.READY = .READY →
      (queue example_preempted 1).count 0 = 1 ∧
        ∀ i : Nat, i ≠ 1 → 0 ∉ queue example_preempted i) ∧
    (Status.READY ≠ .READY → ∀ i : Nat, 0 ∉ queue example_preempted i) ∧
    (example_preempted.current_thread = some 0 → ∀ i : Nat, 0 ∉ queue example_preempted i) :=
  ready_structure 256 example_preempted example_preempted_reachable 0
    { example_A with status := .READY } rfl

/-! ## Which thread is current after a decision -/

theorem wake_thread_current {s s' : str_schedule} {th : Option tthread}
    (h : wake_thread s th = .ok s') : s'.current_thread = s.current_thread := by
  unfold wake_thread at h
  cases th with
  | none => simp at h
  | some p =>
    cases hl : load s p with
    | error e => simp [hl] at h
    | ok t =>
      simp only [hl, ok_bind, pure_ok, Except.ok.injEq] at h
      subst h
      rfl

theorem enqueue_current {s s' : str_schedule} {p : tthread} (h : enqueue s p = .ok s') :
    s'.current_thread = s.current_thread := by
  unfold enqueue at h
  cases hl : load s p with
  | error e => simp [hl] at h
  | ok t =>
    simp only [hl, ok_bind] at h
    split at h
    · simp only [pure_ok, Except.ok.injEq] at h
      subst h
      rfl
    · simp at h

theorem run_next_current {s s' : str_schedule} {next : Option tthread}
    (h : run_next s next = .ok s') : s'.current_thread = next := by
  unfold run_next at h
  simp only at h
  exact wake_thread_current h

theorem change_thread_current {s s' : str_schedule} {next : Option tthread} {c : tthread}
    (h : change_thread s next c = .ok s') : s'.current_thread = next := by
  unfold change_thread at h
  cases hl : load (dequeue s) c with
  | error e => simp [hl] at h
  | ok t =>
    simp only [hl, ok_bind] at h
    cases he : enqueue (store (dequeue s) c { t with rem_time := (dequeue s).quantum }) c with
    | error e => simp [he] at h
    | ok s3 =>
      simp only [he, ok_bind] at h
      exact wake_thread_current h

theorem continue_current_current {s s' : str_schedule} (h : continue_current s = .ok s') :
    s'.current_thread = s.current_thread := by
  unfold continue_current at h
  cases hr : reset_quantum s s.current_thread with
  | error e => simp [hr] at h
  | ok s1 =>
    simp only [hr, ok_bind] at h
    exact (wake_thread_current h).trans (reset_quantum_frame hr).2

/-- C8: with a `RUNNING` current thread `c` and `next` the head of the highest
non-empty queue (a thread other than `c`), the decision function returns, and
it makes `next` the current thread exactly when `next` has a higher priority,
or the same priority while `c` has no quantum left; otherwise `c` stays
current. So a lower priority never preempts. -/
theorem check_scheduler_tie_break (s : str_schedule) (c n : Nat) (ct nt : thread)
    (hcur : s.current_thread = some c) (hc : s.threads[c]? = some ct)
    (hrun : ct.status = .RUNNING) (hn : get_max_priority_thread s = some n)
    (hnt : s.threads[n]? = some nt) (hne : n ≠ c) (hcp : ct.priority ≤ SO_MAX_PRIO)
    (hlen : s.queues.length = 6) :
    ∃ s', check_scheduler s = .ok s' ∧
      (s'.current_thread = some n ↔
        (nt.priority > ct.priority ∨ (nt.priority = ct.priority ∧ ct.rem_time = 0))) ∧
      (s'.current_thread = some n ∨ s'.current_thread = some c) ∧
      (nt.priority < ct.priority → s'.current_thread = some c) := by
  have hst : ¬ (ct.status = .TERMINATED ∨ ct.status = .WAITING) := by
    rw [hrun]
    simp
  obtain ⟨f, rest, hf, -⟩ := get_max_some hn
  have hcp' : ct.priority < s.queues.length := by
    rw [hlen]
    simp only [ SO_MAX_PRIO] at hcp
    omega
  have hcheck := check_running_next hcur hc hst hn hnt
  by_cases hcond : nt.priority > ct.priority ∨ (nt.priority = ct.priority ∧ ct.rem_time ≤ 0)
  · rw [if_pos hcond] at hcheck
    have hch := change_thread_eq hf hnt hc hne hcp'
    have hcur' := change_thread_current hch
    refine ⟨_, hcheck.trans hch, ⟨fun _ => ?_, fun _ => hcur'⟩, Or.inl hcur', fun hlt => ?_⟩
    · rcases hcond with h1 | ⟨h1, h2⟩
      · exact Or.inl h1
      · exact Or.inr ⟨h1, Nat.le_zero.1 h2⟩
    · rcases hcond with h1 | ⟨h1, -⟩ <;> omega
  · rw [if_neg hcond] at hcheck
    have hco := continue_current_eq hcur hc
    have hcur' := (continue_current_current hco).trans hcur
    refine ⟨_, hcheck.trans hco, ⟨fun h1 => ?_, fun h1 => ?_⟩, Or.inr hcur', fun _ => hcur'⟩
    · rw [hcur'] at h1
      exact absurd (Option.some.inj h1).symm hne
    · exfalso
      apply hcond
      rcases h1 with h1 | ⟨h1, h2⟩
      · exact Or.inl h1
      · exact Or.inr ⟨h1, Nat.le_zero.2 h2⟩

theorem check_scheduler_tie_break_witness :
    ∃ s', check_scheduler example_preempted = .ok s' ∧
      (s'.current_thread = some 0 ↔
        (example_A.priority > example_B.priority ∨
          (example_A.priority = example_B.priority ∧ example_B.rem_time = 0))) ∧
      (s'.current_thread = some 0 ∨ s'.current_thread = some 1) ∧
      (example_A.priority < example_B.priority → s'.current_thread = some 1) :=
  check_scheduler_tie_break example_preempted 1 0 example_B { example_A with status := .READY }
    rfl rfl rfl rfl rfl (by decide) (by decide) rfl

/-! ## `so_fork` from a running task -/

theorem forked_preinv {s : str_schedule} (h : Inv s) (f p : Nat) (hp : p ≤ SO_MAX_PRIO) :
    PreInv (forked s f p) := fork_entry_preinv h f p hp

theorem mem_queue_forked {s : str_schedule} (f : Nat) {p : Nat} (hp : p < s.queues.length)
    (j x : Nat) :
    x ∈ queue (forked s f p) j ↔ (x ∈ queue s j ∨ (x = s.threads.length ∧ j = p)) := by
  show x ∈ (s.queues.set p (queue s p ++ [s.threads.length])).getD j [] ↔ _
  rw [getD_set]
  by_cases hj : p = j
  · subst hj
    simp [hp]
  · simp only [hj, false_and, if_false]
    constructor
    · exact fun hx => Or.inl hx
    · rintro (hx | ⟨-, hx⟩)
      · exact hx
      · exact absurd hx.symm hj

theorem so_fork_eq {s : str_schedule} (f p : Nat) (hp : p ≤ SO_MAX_PRIO)
    (hlen : s.queues.length = 6) :
    so_fork (some s) (some f) p =
      ((if (forked s f p).current_thread = none then check_scheduler (forked s f p)
        else exec_body (forked s f p)) >>= fun s4 =>
          load s4 s.threads.length >>= fun t => pure (t.thread_id, some s4)) := by
  have hp6 : p < s.queues.length := by
    rw [hlen]
    simp only [ SO_MAX_PRIO] at hp
    omega
  have hnotinv : ¬ (p > SO_MAX_PRIO ∨ (some f : Option Nat) = none) := by
    simp only [reduceCtorEq, or_false]
    omega
  have hprefix := fork_entry_eq (s := s) f p hp6
  unfold so_fork
  rw [if_neg hnotinv]
  simp only
  have hbind : ∀ (k : str_schedule → Except Fault (Nat × Option str_schedule)),
      (enqueue (add_thread s (init_thread s f p)) s.threads.length >>= fun s2 =>
        pthread_create s2 s.threads.length >>= k) =
      ((enqueue (add_thread s (init_thread s f p)) s.threads.length >>= fun s2 =>
        pthread_create s2 s.threads.length) >>= k) := by
    intro k
    cases enqueue (add_thread s (init_thread s f p)) s.threads.length <;> rfl
  rw [hbind, hprefix]
  rfl

/-- The unsigned decrement gives 0 exactly on 1. -/
theorem dec_eq_zero {r : Nat} (h : r < UINT_RANGE) :
    (r + UINT_RANGE - 1) % UINT_RANGE = 0 ↔ r = 1 := by
  unfold UINT_RANGE at *
  omega

/-- C9, amended: with a `RUNNING` current thread `c` in a consistent scheduler
and a handler, `so_fork` at a priority `p ≤ c.priority` returns, and `c` is
still the current thread afterwards exactly when its remaining quantum was not
1, or `p` is strictly lower and no thread of `c`'s priority is queued. (With
one unit left the fork drains the quantum, and an equal-priority thread, the
new one included, takes over.) -/
theorem so_fork_keeps_current (s : str_schedule) (c : Nat) (ct : thread) (f p : Nat)
    (hinv : Inv s) (hcur : s.current_thread = some c) (hc : s.threads[c]? = some ct)
    (hrun : ct.status = .RUNNING) (hp : p ≤ ct.priority) (hrem : ct.rem_time < UINT_RANGE) :
    ∃ tid s', so_fork (some s) (some f) p = .ok (tid, some s') ∧
      (s'.current_thread = some c ↔
        (ct.rem_time ≠ 1 ∨ (p < ct.priority ∧ queue s ct.priority = []))) := by
  have hcp5 : ct.priority ≤ SO_MAX_PRIO := hinv.1.2.1 c ct hc
  have hp5 : p ≤ SO_MAX_PRIO := le_trans hp hcp5
  have hlen : s.queues.length = 6 := hinv.1.1
  have hp6 : p < s.queues.length := by
    rw [hlen]
    simp only [ SO_MAX_PRIO] at hp5
    omega
  obtain ⟨tid, s', hfork, -⟩ := so_fork_inv hinv f p hp5
  refine ⟨tid, s', hfork, ?_⟩
  -- the decision that the fork ends with
  have hfcur : (forked s f p).current_thread = some c := hcur
  have hfc : (forked s f p).threads[c]? = some ct := get_append_single.2 (Or.inl hc)
  rw [so_fork_eq f p hp5 hlen, hfcur] at hfork
  simp only [reduceCtorEq, if_false] at hfork
  rw [exec_body_eq hfcur hfc] at hfork
  have hpre : PreInv (store (forked s f p) c
      { ct with rem_time := (ct.rem_time + UINT_RANGE - 1) % UINT_RANGE }) :=
    store_current_preinv (forked_preinv hinv f p hp5) hfcur hfc rfl
      (by rw [hrun]; simp) (by rw [hrun]; simp)
  generalize hz : store (forked s f p) c
      { ct with rem_time := (ct.rem_time + UINT_RANGE - 1) % UINT_RANGE } = z at hfork hpre
  have hzq : ∀ j, queue z j = queue (forked s f p) j := by
    intro j
    rw [← hz]
    rfl
  have hzcur : z.current_thread = some c := by
    rw [← hz]
    exact hcur
  have hclt : c < (forked s f p).threads.length := (List.getElem?_eq_some.1 hfc).1
  have hzc : z.threads[c]? =
      some { ct with rem_time := (ct.rem_time + UINT_RANGE - 1) % UINT_RANGE } := by
    rw [← hz]
    simp only [store_threads, List.getElem?_set, if_true, hclt]
  cases hcheck : check_scheduler z with
  | error e => simp [hcheck] at hfork
  | ok s4 =>
    rw [hcheck] at hfork
    simp only [ok_bind] at hfork
    have hs4 : s4 = s' := by
      cases hl : load s4 s.threads.length with
      | error e => simp [hl] at hfork
      | ok t =>
        simp only [hl, ok_bind, pure_ok, Except.ok.injEq, Prod.mk.injEq,
          Option.some.injEq] at hfork
        exact hfork.2
    subst hs4
    -- the head of the highest queue
    have hnew : s.threads.length ∈ queue z p := by
      rw [hzq]
      exact (mem_queue_forked f hp6 p _).2 (Or.inr ⟨rfl, rfl⟩)
    cases hn : get_max_priority_thread z with
    | none =>
      have := first_nonempty_none (get_max_none hn) p (by rw [hlen] at hp6; exact hp6)
      rw [this] at hnew
      cases hnew
    | some n =>
      obtain ⟨fq, nt, hf, hnt, hnst, hnpr, -, -, hmax⟩ := dequeue_facts hpre.1 hn
      have hst : ¬ (({ ct with rem_time := (ct.rem_time + UINT_RANGE - 1) % UINT_RANGE } :
          thread).status = .TERMINATED ∨
          ({ ct with rem_time := (ct.rem_time + UINT_RANGE - 1) % UINT_RANGE } :
          thread).status = .WAITING) := by
        show ¬ (ct.status = .TERMINATED ∨ ct.status = .WAITING)
        rw [hrun]
        simp
      have hne : n ≠ c := by
        rintro rfl
        rw [hzc] at hnt
        cases hnt
        have : ct.status = .READY := hnst
        rw [hrun] at this
        cases this
      -- the highest queue is not above the current thread
      have hfle : fq ≤ ct.priority := by
        obtain ⟨x, hx⟩ := List.exists_mem_of_ne_nil _ (first_nonempty_some hf).2.1
        rw [hzq] at hx
        rcases (mem_queue_forked f hp6 fq x).1 hx with hx1 | ⟨-, hx1⟩
        · obtain ⟨ct', hct', hcase⟩ := hinv.2.2.2 c hcur
          rw [hc] at hct'
          cases hct'
          rcases hcase with ⟨-, hm⟩ | ⟨h1 | h1, -⟩
          · exact hm fq (List.ne_nil_of_mem hx1)
          · rw [hrun] at h1
            cases h1
          · rw [hrun] at h1
            cases h1
        · omega
      have hfeq : fq = ct.priority ↔ (queue s ct.priority ≠ [] ∨ p = ct.priority) := by
        constructor
        · intro h1
          obtain ⟨x, hx⟩ := List.exists_mem_of_ne_nil _ (first_nonempty_some hf).2.1
          rw [hzq, h1] at hx
          rcases (mem_queue_forked f hp6 _ x).1 hx with hx1 | ⟨-, hx1⟩
          · exact Or.inl (List.ne_nil_of_mem hx1)
          · exact Or.inr hx1.symm
        · intro h1
          have : queue z ct.priority ≠ [] := by
            rcases h1 with h1 | h1
            · obtain ⟨x, hx⟩ := List.exists_mem_of_ne_nil _ h1
              apply List.ne_nil_of_mem (a := x)
              rw [hzq]
              exact (mem_queue_forked f hp6 _ x).2 (Or.inl hx)
            · rw [← h1]
              exact List.ne_nil_of_mem hnew
          have := hmax _ this
          omega
      rw [check_running_next hzcur hzc hst hn hnt] at hcheck
      have hdec := dec_eq_zero hrem
      by_cases hcond : nt.priority > ct.priority ∨ (nt.priority = ct.priority ∧
          (ct.rem_time + UINT_RANGE - 1) % UINT_RANGE ≤ 0)
      · rw [if_pos hcond] at hcheck
        have hcur' := change_thread_current hcheck
        rw [hcur']
        constructor
        · intro h1
          exact absurd (Option.some.inj h1) hne
        · intro h1
          exfalso
          rcases hcond with h2 | ⟨h2, h3⟩
          · omega
          · have hr1 : ct.rem_time = 1 := hdec.1 (Nat.le_zero.1 h3)
            have hq := hfeq.1 (hnpr.symm.trans h2)
            rcases h1 with h1 | ⟨h1, h4⟩
            · exact h1 hr1
            · rcases hq with hq | hq
              · exact hq h4
              · omega
      · rw [if_neg hcond] at hcheck
        have hcur' := (continue_current_current hcheck).trans hzcur
        rw [hcur']
        refine ⟨fun _ => ?_, fun _ => rfl⟩
        by_cases hr1 : ct.rem_time = 1
        · right
          have hnf : ¬ fq = ct.priority := by
            intro h1
            apply hcond
            right
            exact ⟨hnpr.trans h1, Nat.le_of_eq (hdec.2 hr1)⟩
          have hq := fun h => hnf (hfeq.2 h)
          constructor
          · have : p ≠ ct.priority := fun h => hq (Or.inr h)
            omega
          · by_contra h1
            exact hq (Or.inl h1)
        · exact Or.inl hr1

theorem so_fork_keeps_current_witness :
    ∃ tid s', so_fork (some example_first) (some 8) 1 = .ok (tid, some s') ∧
      (s'.current_thread = some 0 ↔
        (example_A.rem_time ≠ 1 ∨ (1 < example_A.priority ∧
          queue example_first example_A.priority = []))) :=
  so_fork_keeps_current example_first 0 example_A 8 1 (inv_of_reachable example_first_reachable)
    rfl rfl rfl (by decide) (by decide)

/-- C9 fails as stated: a reachable scheduler whose current thread runs at
priority 1 with one unit of quantum left forks at priority 1, and the new
thread is the current one afterwards. -/
theorem so_fork_equal_priority_preempts :
    Reachable 256 example_last_unit ∧
    example_last_unit.current_thread = some 0 ∧
    example_last_unit.threads[0]? = some { example_A with rem_time := 1 } ∧
    so_fork (some example_last_unit) (some 8) 1 = .ok (2, some example_round_robin) ∧
    example_round_robin.current_thread = some 1 :=
  ⟨example_last_unit_reachable, rfl, rfl, rfl, rfl⟩

/-- C6: in a consistent scheduler with a `RUNNING` current thread,
`so_signal(io)` with `io ≥ io_count` returns -1 and changes nothing (and -1 is
returned in no other case). Otherwise its scan returns the number of roster
threads that are `WAITING` on `io`; after the scan exactly these threads are
`READY` with the sentinel device and every other record is unchanged, and each
queue has got, at its tail and in roster order, the moved threads of its
priority; then `so_exec` runs and `so_signal` returns that number. -/
theorem so_signal_contract (s : str_schedule) (c : Nat) (ct : thread) (io : Nat)
    (hinv : Inv s) (hcur : s.current_thread = some c) (hc : s.threads[c]? = some ct)
    (hrun : ct.status = .RUNNING) :
    (∀ g', so_signal (some s) io = .ok (-1, g') ↔ (io ≥ s.io ∧ g' = some s)) ∧
    (io ≥ s.io ∨ ∃ s1 s2,
      signal_scan io s.threads.length 0 s 0 = .ok (s1, s.threads.countP (waits_on io)) ∧
      s1.threads = s.threads.map (woken io) ∧
      (∀ j, queue s1 j = queue s j ++
        (List.range s.threads.length).filter (moved_at s io j)) ∧
      s1.quantum = s.quantum ∧ s1.io = s.io ∧ s1.current_thread = s.current_thread ∧
      s1.end_semaphore = s.end_semaphore ∧
      exec_body s1 = .ok s2 ∧
      so_signal (some s) io = .ok ((s.threads.countP (waits_on io) : Nat), some s2)) := by
  by_cases hio : io ≥ s.io
  · refine ⟨fun g' => ?_, Or.inl hio⟩
    simp only [so_signal, hio, if_true, pure_ok, Except.ok.injEq, Prod.mk.injEq, true_and]
    exact eq_comm
  · obtain ⟨s1, hs1, ht1, hq1, -, hqu1, hio1, hcur1, hend1, hpre⟩ :=
      signal_scan_preinv hinv hcur hc hrun io
    obtain ⟨s2, hs2, -⟩ := exec_body_inv hpre (hcur1.trans hcur)
    have hsig : so_signal (some s) io =
        .ok ((s.threads.countP (waits_on io) : Nat), some s2) := by
      simp [so_signal, hio, hs1, hs2]
    refine ⟨fun g' => ?_, Or.inr ⟨s1, s2, hs1, ht1, hq1, hqu1, hio1, hcur1, hend1, hs2, hsig⟩⟩
    rw [hsig]
    simp only [Except.ok.injEq, Prod.mk.injEq, hio, false_and, iff_false, not_and]
    intro h
    omega

theorem so_signal_contract_witness :
    example_waiting.io ≤ 0 ∨ ∃ s1 s2,
      signal_scan 0 example_waiting.threads.length 0 example_waiting 0 =
        .ok (s1, example_waiting.threads.countP (waits_on 0)) ∧
      s1.threads = example_waiting.threads.map (woken 0) ∧
      (∀ j, queue s1 j = queue example_waiting j ++
        (List.range example_waiting.threads.length).filter (moved_at example_waiting 0 j)) ∧
      s1.quantum = example_waiting.quantum ∧ s1.io = example_waiting.io ∧
      s1.current_thread = example_waiting.current_thread ∧
      s1.end_semaphore = example_waiting.end_semaphore ∧
      exec_body s1 = .ok s2 ∧
      so_signal (some example_waiting) 0 =
        .ok ((example_waiting.threads.countP (waits_on 0) : Nat), some s2) :=
  (so_signal_contract example_waiting 0 { example_A with semaphore := 2 } 0
    (inv_of_reachable example_waiting_reachable) rfl rfl rfl).2

/-! ## More reachable examples -/


theorem example_unit_first_reachable : Reachable 256 example_unit_first :=
  Reachable.fork example_unit_fresh (some 7) 1 1 example_unit_first
    (Reachable.init 1 1 example_unit_fresh rfl) (Or.inl rfl) rfl

theorem example_unit_forked_reachable : Reachable 256 example_unit_forked :=
  Reachable.fork example_unit_first (some 8) 0 2 example_unit_forked
    example_unit_first_reachable (Or.inr ⟨0, { example_A with rem_time := 1 }, rfl, rfl, rfl⟩) rfl

theorem example_unit_waiting_reachable : Reachable 256 example_unit_waiting :=
  Reachable.wait example_unit_forked 0 0 example_unit_waiting example_unit_forked_reachable
    ⟨0, { example_A with rem_time := 1, semaphore := 2 }, rfl, rfl, rfl⟩ rfl

theorem example_drained_reachable : Reachable 256 example_drained :=
  Reachable.signal example_unit_waiting 0 1 example_drained example_unit_waiting_reachable
    ⟨1, { example_B with priority := 0, rem_time := 1 }, rfl, rfl, rfl⟩ rfl

theorem example_deadlock_reachable : Reachable 256 example_deadlock :=
  Reachable.wait example_first 0 0 example_deadlock example_first_reachable
    example_first_running rfl

theorem example_one_queued_reachable : Reachable 256 example_one_queued :=
  Reachable.fork example_first (some 8) 0 2 example_one_queued example_first_reachable
    (Or.inr example_first_running) rfl

theorem example_two_queued_reachable : Reachable 256 example_two_queued :=
  Reachable.fork example_one_queued (some 9) 0 3 example_two_queued
    example_one_queued_reachable
    (Or.inr ⟨0, { example_A with rem_time := 1, semaphore := 2 }, rfl, rfl, rfl⟩) rfl

/-- C11: in every reachable scheduler two roster threads that are both
`RUNNING` are the same thread, and a `RUNNING` thread is the current one. -/
theorem single_running (SO_MAX_NUM_EVENTS : Nat) (s : str_schedule)
    (h : Reachable SO_MAX_NUM_EVENTS s) (p q : Nat) (tp tq : thread)
    (hp : s.threads[p]? = some tp) (hq : s.threads[q]? = some tq)
    (hrp : tp.status = .RUNNING) (hrq : tq.status = .RUNNING) :
    p = q ∧ s.current_thread = some p := by
  obtain ⟨-, hs, -, -⟩ := inv_of_reachable h
  have h1 := (hs p tp hp).2 hrp
  have h2 := (hs q tq hq).2 hrq
  rw [h1] at h2
  exact ⟨Option.some.inj h2, h1⟩

theorem single_running_witness :
    (1 : Nat) = 1 ∧ example_preempted.current_thread = some 1 :=
  single_running 256 example_preempted example_preempted_reachable 1 1 example_B example_B
    rfl rfl rfl rfl

/-- C12 fails on the code: after `so_init(1, 1)`, a fork of `A` (priority 1),
`A` forking `B` (priority 0) and calling `so_wait(0)`, and `B` calling
`so_signal(0)`, the thread `A` is current and `RUNNING` with `rem_time = 0`;
its next `so_exec` decrements that 0, and `rem_time` is 4294967295 with a
quantum of 1. -/
theorem rem_time_wraps :
    Reachable 256 example_drained ∧
    example_drained.current_thread = some 0 ∧
    example_drained.threads[0]? = some { example_A with rem_time := 0, semaphore := 3 } ∧
    ({ example_A with rem_time := 0, semaphore := 3 } : thread).status = .RUNNING ∧
    so_exec (some example_drained) = .ok (some example_wrapped) ∧
    example_wrapped.threads[0]? =
      some { example_A with rem_time := 4294967295, semaphore := 4 } ∧
    example_wrapped.quantum = 1 :=
  ⟨example_drained_reachable, rfl, rfl, rfl, rfl, rfl, rfl⟩

/-- C13 fails on the code: when the only thread of a reachable scheduler calls
`so_wait(0)`, the decision function finds the current thread `WAITING` and no
thread queued, and posts the end semaphore although that thread is not
`TERMINATED`. -/
theorem end_posted_while_waiting :
    Reachable 256 example_first ∧
    so_wait (some example_first) 0 = .ok (0, some example_deadlock) ∧
    check_scheduler { example_deadlock with end_semaphore := 0 } = .ok example_deadlock ∧
    example_deadlock.end_semaphore = 1 ∧
    example_deadlock.threads =
      [{ example_A with rem_time := 1, status := .WAITING, io_device := 0 }] :=
  ⟨example_first_reachable, rfl, rfl, rfl, rfl⟩

/-- C14: `so_end` without a scheduler returns and changes nothing. On a set
scheduler it returns exactly when the roster is empty, or the end semaphore
has been posted and every thread is `TERMINATED`; whenever it returns the
global is unset, so a second `so_end` returns and changes nothing, and
`so_init` then behaves as on a first call: with a positive quantum and
`io ≤ SO_MAX_NUM_EVENTS` it returns 0 and the fresh scheduler. -/
theorem so_end_idempotent (SO_MAX_NUM_EVENTS : Nat) :
    so_end none = .ok none ∧
    (∀ s : str_schedule, so_end (some s) = .ok none ↔
      (s.threads = [] ∨ (0 < s.end_semaphore ∧ ∀ t ∈ s.threads, t.status = .TERMINATED))) ∧
    (∀ (s : str_schedule) (g' : Option str_schedule), so_end (some s) = .ok g' →
      g' = none ∧ so_end g' = .ok g' ∧
      ∀ time_quantum io : Nat,
        so_init SO_MAX_NUM_EVENTS g' time_quantum io =
          so_init SO_MAX_NUM_EVENTS none time_quantum io ∧
        (0 < time_quantum → io ≤ SO_MAX_NUM_EVENTS →
          so_init SO_MAX_NUM_EVENTS g' time_quantum io =
            (0, some { threads := [], queues := [[], [], [], [], [], []],
                       quantum := time_quantum, io := io, current_thread := none,
                       end_semaphore := 0 }))) := by
  have hret : ∀ (s : str_schedule) (g' : Option str_schedule),
      so_end (some s) = .ok g' → g' = none := by
    intro s g' h
    unfold so_end at h
    simp only at h
    split at h
    · simp at h
    · split at h
      · simp only [pure_ok, Except.ok.injEq] at h
        exact h.symm
      · simp at h
  refine ⟨rfl, ?_, ?_⟩
  · intro s
    unfold so_end
    simp only
    by_cases h1 : s.threads ≠ [] ∧ s.end_semaphore = 0
    · rw [if_pos h1]
      simp only [throw_error, reduceCtorEq, false_iff, not_or, not_and]
      exact ⟨h1.1, fun h => absurd h1.2 (by omega)⟩
    · rw [if_neg h1]
      by_cases h2 : ∀ t ∈ s.threads, t.status = .TERMINATED
      · rw [if_pos h2]
        simp only [pure_ok, true_iff]
        by_cases h3 : s.threads = []
        · exact Or.inl h3
        · right
          refine ⟨?_, h2⟩
          by_contra h4
          exact h1 ⟨h3, by omega⟩
      · rw [if_neg h2]
        simp only [throw_error, reduceCtorEq, false_iff, not_or, not_and]
        refine ⟨fun h3 => h2 ?_, fun _ => h2⟩
        rw [h3]
        intro t ht
        cases ht
  · intro s g' h
    have hg := hret s g' h
    subst hg
    refine ⟨rfl, rfl, fun q io => ⟨rfl, fun hq hio => ?_⟩⟩
    unfold so_init
    rw [if_neg]
    · rfl
    · simp only [ne_eq, not_true_eq_false, or_false, not_or, not_le]
      exact ⟨hq, by omega⟩

/-- C16 fails as stated: without a scheduler, `so_fork` with a handler and
priority 1, `so_wait(0)` and `so_signal(0)` read through the `NULL` global. -/
theorem uninitialized_access :
    so_fork none (some 7) 1 = .error .segfault ∧
    so_wait none 0 = .error .segfault ∧
    so_signal none 0 = .error .segfault :=
  ⟨rfl, rfl, rfl⟩

/-- C16, amended: without a scheduler, `so_fork` returns exactly when the
priority exceeds `SO_MAX_PRIO` or the handler is `NULL`, and then it returns
`INVALID_TID` and the global stays unset; `so_fork` with a handler and a
priority up to `SO_MAX_PRIO`, `so_wait(io)` and `so_signal(io)` return nothing,
for every `io`: no sentinel is reported. -/
theorem uninitialized_misuse (func : Option Nat) (priority io : Nat) :
    (∀ r, so_fork none func priority = .ok r ↔
      ((priority > SO_MAX_PRIO ∨ func = none) ∧ r = (INVALID_TID, none))) ∧
    (∀ r, so_wait none io ≠ .ok r) ∧
    (∀ r, so_signal none io ≠ .ok r) := by
  refine ⟨fun r => ?_, fun r h => ?_, fun r h => ?_⟩
  · unfold so_fork
    by_cases hbad : priority > SO_MAX_PRIO ∨ func = none
    · rw [if_pos hbad]
      simp only [pure_ok, Except.ok.injEq, hbad, true_and]
      exact eq_comm
    · rw [if_neg hbad]
      simp [hbad]
  · simp [so_wait] at h
  · simp [so_signal] at h

/-! ## The state after a preemption -/

/-- The queues after `change_thread`: the head of queue `f` is gone and `c` is
the last of the queue of its priority. -/
theorem change_thread_queue {s : str_schedule} {f cp c : Nat} {n : tthread}
    {rest : List tthread} (hq : queue s f = n :: rest) (hf : f < s.queues.length)
    (hcp : cp < s.queues.length) (j : Nat) :
    ((s.queues.set f (queue s f).tail).set cp
        ((s.queues.set f (queue s f).tail).getD cp [] ++ [c])).getD j [] =
      (if j = f then rest else queue s j) ++ (if j = cp then [c] else []) := by
  rw [getD_set, getD_set, getD_set, hq, List.tail_cons, List.length_set]
  by_cases hj : cp = j
  · subst hj
    by_cases hjf : f = cp
    · subst hjf
      simp [hf]
    · simp [hjf, Ne.symm hjf, hcp, queue]
  · by_cases hjf : f = j
    · subst hjf
      simp [hj, Ne.symm hj, hf]
    · simp [hj, Ne.symm hj, hjf, Ne.symm hjf, queue]

/-- C17: when the decision function hands control from a `RUNNING` current
thread `c` to `next`, the head of the highest non-empty queue `f`, then
afterwards `next` is current and `RUNNING` with one more post and otherwise
the record it had (its `rem_time` included), `c` is `READY` with
`rem_time = quantum`, every other record is unchanged, queue `f` has lost its
head, `c` is the last of the queue of its priority, and every other queue and
field is unchanged. -/
theorem preemption_post_state (s : str_schedule) (c n : Nat) (ct nt : thread)
    (hcur : s.current_thread = some c) (hc : s.threads[c]? = some ct)
    (hrun : ct.status = .RUNNING) (hn : get_max_priority_thread s = some n)
    (hnt : s.threads[n]? = some nt) (hne : n ≠ c) (hcp : ct.priority ≤ SO_MAX_PRIO)
    (hlen : s.queues.length = 6)
    (hcond : nt.priority > ct.priority ∨ (nt.priority = ct.priority ∧ ct.rem_time = 0)) :
    ∃ (s' : str_schedule) (f : Nat) (rest : List tthread),
      check_scheduler s = .ok s' ∧ first_nonempty s 6 = some f ∧ queue s f = n :: rest ∧
      s'.current_thread = some n ∧
      s'.threads[n]? = some { nt with status := .RUNNING, semaphore := nt.semaphore + 1 } ∧
      s'.threads[c]? = some { ct with rem_time := s.quantum, status := .READY } ∧
      (∀ p : Nat, p ≠ n → p ≠ c → s'.threads[p]? = s.threads[p]?) ∧
      s'.threads.length = s.threads.length ∧
      queue s' ct.priority = (if ct.priority = f then rest else queue s ct.priority) ++ [c] ∧
      (queue s' ct.priority).getLast? = some c ∧
      (f ≠ ct.priority → queue s' f = rest) ∧
      (∀ j : Nat, j ≠ f → j ≠ ct.priority → queue s' j = queue s j) ∧
      s'.quantum = s.quantum ∧ s'.io = s.io ∧ s'.end_semaphore = s.end_semaphore := by
  have hst : ¬ (ct.status = .TERMINATED ∨ ct.status = .WAITING) := by
    rw [hrun]
    simp
  obtain ⟨f, rest, hf, hq⟩ := get_max_some hn
  have hf6 : f < s.queues.length := by
    rw [hlen]
    exact (first_nonempty_some hf).1
  have hcp' : ct.priority < s.queues.length := by
    rw [hlen]
    simp only [ SO_MAX_PRIO] at hcp
    omega
  have hclt : c < s.threads.length := (List.getElem?_eq_some.1 hc).1
  have hnlt : n < s.threads.length := (List.getElem?_eq_some.1 hnt).1
  have hcond' : nt.priority > ct.priority ∨ (nt.priority = ct.priority ∧ ct.rem_time ≤ 0) := by
    rcases hcond with h1 | ⟨h1, h2⟩
    · exact Or.inl h1
    · exact Or.inr ⟨h1, Nat.le_of_eq h2⟩
  have hcheck := check_running_next hcur hc hst hn hnt
  rw [if_pos hcond'] at hcheck
  have hch := change_thread_eq hf hnt hc hne hcp'
  have hqueue := change_thread_queue (c := c) hq hf6 hcp'
  have hcpq : ((s.queues.set f (queue s f).tail).set ct.priority
        ((s.queues.set f (queue s f).tail).getD ct.priority [] ++ [c])).getD ct.priority [] =
      (if ct.priority = f then rest else queue s ct.priority) ++ [c] := by
    rw [hqueue ct.priority, if_pos rfl]
  refine ⟨_, f, rest, hcheck.trans hch, hf, hq, rfl, ?_, ?_, ?_, ?_, hcpq, ?_, ?_, ?_,
    rfl, rfl, rfl⟩
  · simp only [List.getElem?_set, List.length_set, if_true, hnlt]
  · simp only [List.getElem?_set, hne, if_false, if_true, hclt]
  · intro p hpn hpc
    simp only [List.getElem?_set, Ne.symm hpn, Ne.symm hpc, if_false]
  · simp
  · show (((s.queues.set f (queue s f).tail).set ct.priority
        ((s.queues.set f (queue s f).tail).getD ct.priority [] ++ [c])).getD
          ct.priority []).getLast? = some c
    rw [hcpq]
    simp
  · intro hfc
    show ((s.queues.set f (queue s f).tail).set ct.priority
        ((s.queues.set f (queue s f).tail).getD ct.priority [] ++ [c])).getD f [] = rest
    rw [hqueue f, if_pos rfl, if_neg hfc, List.append_nil]
  · intro j hjf hjc
    show ((s.queues.set f (queue s f).tail).set ct.priority
        ((s.queues.set f (queue s f).tail).getD ct.priority [] ++ [c])).getD j [] = queue s j
    rw [hqueue j, if_neg hjf, if_neg hjc, List.append_nil]

theorem preemption_post_state_witness :
    ∃ s' : str_schedule, check_scheduler example_expired = .ok s' ∧
      s'.current_thread = some 0 ∧
      s'.threads[1]? = some { example_B with
        priority := 1
        rem_time := example_expired.quantum
        semaphore := 3
        status := .READY } ∧
      (queue s' 1).getLast? = some 1 :=
  let ⟨s', _, _, h1, _, _, h2, _, h3, _, _, _, h4, _⟩ :=
    preemption_post_state example_expired 1 0
      { example_B with priority := 1, rem_time := 0, semaphore := 3 }
      { example_A with status := .READY, semaphore := 2 }
      rfl rfl rfl rfl rfl (by decide) (by decide) rfl (Or.inr ⟨rfl, rfl⟩)
  ⟨s', h1, h2, h3, h4⟩

/-! ## One post per decision -/

/-- C18: the decision function, entered with a current thread `c` in a
scheduler as the API functions hand it over (`PreInv`), returns and makes one
post. Exactly when `c` is `TERMINATED` or `WAITING` and every queue is empty,
the post is on the end semaphore and nothing else changes. In every other case
the end semaphore is unchanged, the gate of the resulting current thread has
one more post, that thread is `RUNNING`, and the gate of every other thread is
unchanged. -/
theorem one_post_per_decision (z : str_schedule) (c : Nat) (ct : thread) (hpre : PreInv z)
    (hcur : z.current_thread = some c) (hc : z.threads[c]? = some ct) :
    ∃ s', check_scheduler z = .ok s' ∧ s'.threads.length = z.threads.length ∧
      ((((ct.status = .TERMINATED ∨ ct.status = .WAITING) ∧ ∀ i : Nat, queue z i = []) ∧
          s' = { z with end_semaphore := z.end_semaphore + 1 }) ∨
       (¬ ((ct.status = .TERMINATED ∨ ct.status = .WAITING) ∧ ∀ i : Nat, queue z i = []) ∧
          s'.end_semaphore = z.end_semaphore ∧
          ∃ (n : Nat) (nt nt' : thread), s'.current_thread = some n ∧
            z.threads[n]? = some nt ∧ s'.threads[n]? = some nt' ∧
            nt'.status = .RUNNING ∧ nt'.semaphore = nt.semaphore + 1 ∧
            ∀ (p : Nat) (t t' : thread), p ≠ n → z.threads[p]? = some t →
              s'.threads[p]? = some t' → t'.semaphore = t.semaphore)) := by
  obtain ⟨hq, hs, -, hsome⟩ := hpre
  obtain ⟨ct', hct', hnr⟩ := hsome c hcur
  rw [hc] at hct'
  cases hct'
  have hclt : c < z.threads.length := (List.getElem?_eq_some.1 hc).1
  have hlen : z.queues.length = 6 := hq.1
  -- the three ways out
  have hrun_next : ∀ n : Nat, get_max_priority_thread z = some n →
      ∃ s', run_next z (some n) = .ok s' ∧ s'.threads.length = z.threads.length ∧
        s'.end_semaphore = z.end_semaphore ∧
        (¬ ∀ i : Nat, queue z i = []) ∧
        ∃ (nt nt' : thread), s'.current_thread = some n ∧
          z.threads[n]? = some nt ∧ s'.threads[n]? = some nt' ∧
          nt'.status = .RUNNING ∧ nt'.semaphore = nt.semaphore + 1 ∧
          ∀ (p : Nat) (t t' : thread), p ≠ n → z.threads[p]? = some t →
            s'.threads[p]? = some t' → t'.semaphore = t.semaphore := by
    intro n hn
    obtain ⟨f, nt, hf, hnt, -, -, -, -, -⟩ := dequeue_facts hq hn
    have hnlt : n < z.threads.length := (List.getElem?_eq_some.1 hnt).1
    refine ⟨_, run_next_eq hf hnt, by simp, rfl, fun h => (first_nonempty_some hf).2.1 (h f),
      nt, { nt with status := .RUNNING, semaphore := nt.semaphore + 1 }, rfl, hnt, ?_, rfl, rfl,
      ?_⟩
    · simp only [List.getElem?_set, if_true, hnlt]
    · intro p t t' hp ht ht'
      simp only [List.getElem?_set, Ne.symm hp, if_false] at ht'
      rw [ht] at ht'
      cases ht'
      rfl
  have hcontinue : ∃ s', continue_current z = .ok s' ∧
      s'.threads.length = z.threads.length ∧ s'.end_semaphore = z.end_semaphore ∧
      ∃ (nt nt' : thread), s'.current_thread = some c ∧
        z.threads[c]? = some nt ∧ s'.threads[c]? = some nt' ∧
        nt'.status = .RUNNING ∧ nt'.semaphore = nt.semaphore + 1 ∧
        ∀ (p : Nat) (t t' : thread), p ≠ c → z.threads[p]? = some t →
          s'.threads[p]? = some t' → t'.semaphore = t.semaphore := by
    refine ⟨_, continue_current_eq hcur hc, by simp, rfl, ct, { ct with
        rem_time := if ct.rem_time ≤ 0 then z.quantum else ct.rem_time
        status := .RUNNING
        semaphore := ct.semaphore + 1 }, hcur, hc, ?_, rfl, rfl, ?_⟩
    · simp only [List.getElem?_set, if_true, hclt]
    · intro p t t' hp ht ht'
      simp only [List.getElem?_set, Ne.symm hp, if_false] at ht'
      rw [ht] at ht'
      cases ht'
      rfl
  by_cases hst : ct.status = .TERMINATED ∨ ct.status = .WAITING
  · cases hn : get_max_priority_thread z with
    | none =>
      refine ⟨_, check_parked_none hcur hc hst hn, rfl, Or.inl ⟨⟨hst, fun i => ?_⟩, rfl⟩⟩
      by_cases hi : i < 6
      · exact first_nonempty_none (get_max_none hn) i hi
      · exact hq.queue_empty_of_ge (not_lt.1 hi)
    | some n =>
      obtain ⟨s', hs', hl, he, hne, nt, nt', h1⟩ := hrun_next n hn
      exact ⟨s', (check_parked_next hcur hc hst hn).trans hs', hl,
        Or.inr ⟨fun h => hne h.2, he, n, nt, nt', h1⟩⟩
  · have hrun : ct.status = .RUNNING := status_cases _ (hs c ct hc).1 hnr hst
    cases hn : get_max_priority_thread z with
    | none =>
      obtain ⟨s', hs', hl, he, nt, nt', h1⟩ := hcontinue
      exact ⟨s', (check_running_none hcur hc hst hn).trans hs', hl,
        Or.inr ⟨fun h => hst h.1, he, c, nt, nt', h1⟩⟩
    | some n =>
      obtain ⟨f, nt, hf, hnt, hnst, -, -, -, -⟩ := dequeue_facts hq hn
      have hnlt : n < z.threads.length := (List.getElem?_eq_some.1 hnt).1
      have hne : n ≠ c := by
        rintro rfl
        rw [hc] at hnt
        cases hnt
        exact hnr hnst
      have hcp : ct.priority < z.queues.length := by
        have := hq.2.1 c ct hc
        simp only [ SO_MAX_PRIO] at this
        omega
      have hcheck := check_running_next hcur hc hst hn hnt
      by_cases hcond : nt.priority > ct.priority ∨ (nt.priority = ct.priority ∧ ct.rem_time ≤ 0)
      · rw [if_pos hcond] at hcheck
        refine ⟨_, hcheck.trans (change_thread_eq hf hnt hc hne hcp), by simp,
          Or.inr ⟨fun h => hst h.1, rfl, n, nt,
            { nt with status := .RUNNING, semaphore := nt.semaphore + 1 }, rfl, hnt, ?_, rfl,
            rfl, ?_⟩⟩
        · simp only [List.getElem?_set, List.length_set, if_true, hnlt]
        · intro p t t' hp ht ht'
          simp only [List.getElem?_set, Ne.symm hp, if_false] at ht'
          by_cases hpc : c = p
          · subst hpc
            simp only [if_true, hclt, Option.some.injEq] at ht'
            rw [hc] at ht
            cases ht
            rw [← ht']
          · simp only [hpc, if_false] at ht'
            rw [ht] at ht'
            cases ht'
            rfl
      · rw [if_neg hcond] at hcheck
        obtain ⟨s', hs', hl, he, nt0, nt', h1⟩ := hcontinue
        exact ⟨s', hcheck.trans hs', hl, Or.inr ⟨fun h => hst h.1, he, c, nt0, nt', h1⟩⟩

theorem one_post_per_decision_witness :
    ∃ s', check_scheduler example_preempted = .ok s' ∧
      s'.threads.length = example_preempted.threads.length ∧
      ((((example_B.status = .TERMINATED ∨ example_B.status = .WAITING) ∧
          ∀ i : Nat, queue example_preempted i = []) ∧
          s' = { example_preempted with end_semaphore := example_preempted.end_semaphore + 1 }) ∨
       (¬ ((example_B.status = .TERMINATED ∨ example_B.status = .WAITING) ∧
          ∀ i : Nat, queue example_preempted i = []) ∧
          s'.end_semaphore = example_preempted.end_semaphore ∧
          ∃ (n : Nat) (nt nt' : thread), s'.current_thread = some n ∧
            example_preempted.threads[n]? = some nt ∧ s'.threads[n]? = some nt' ∧
            nt'.status = .RUNNING ∧ nt'.semaphore = nt.semaphore + 1 ∧
            ∀ (p : Nat) (t t' : thread), p ≠ n → example_preempted.threads[p]? = some t →
              s'.threads[p]? = some t' → t'.semaphore = t.semaphore)) :=
  one_post_per_decision example_preempted 1 example_B
    ((inv_of_reachable example_preempted_reachable).preInv rfl) rfl rfl

/-! ## Consecutive calls of `so_exec` -/

theorem so_exec_n_succ (n : Nat) (g : Option str_schedule) :
    so_exec_n (n + 1) g = (so_exec_n n g >>= so_exec) := by
  induction n generalizing g with
  | zero =>
    show (so_exec g >>= so_exec_n 0) = so_exec g
    cases so_exec g <;> rfl
  | succ k ih =>
    show (so_exec g >>= so_exec_n (k + 1)) = (so_exec_n (k + 1) g >>= so_exec)
    cases h : so_exec g with
    | error e =>
      show _ = ((so_exec g >>= so_exec_n k) >>= so_exec)
      rw [h]
      rfl
    | ok g1 =>
      show so_exec_n (k + 1) g1 = ((so_exec g >>= so_exec_n k) >>= so_exec)
      rw [h, ih g1]
      rfl

theorem so_exec_eq (s : str_schedule) :
    so_exec (some s) = (exec_body s >>= fun s1 => pure (some s1)) := rfl

/-- The unsigned decrement of a positive `unsigned int`. -/
theorem dec_of_pos {r : Nat} (h0 : 0 < r) (h1 : r < UINT_RANGE) :
    (r + UINT_RANGE - 1) % UINT_RANGE = r - 1 := by
  unfold UINT_RANGE at *
  omega

theorem get_max_none_of_empty {s : str_schedule} (h : ∀ i : Nat, queue s i = []) :
    get_max_priority_thread s = none := by
  cases hn : get_max_priority_thread s with
  | none => rfl
  | some n =>
    obtain ⟨f, rest, -, hq⟩ := get_max_some hn
    rw [h f] at hq
    cases hq

theorem succ_mod_cases (k q : Nat) (hq : 0 < q) :
    (k % q + 1 = q ∧ (k + 1) % q = 0) ∨ (k % q + 1 < q ∧ (k + 1) % q = k % q + 1) := by
  have hlt := Nat.mod_lt k hq
  have hk := Nat.div_add_mod k q
  by_cases h : k % q + 1 = q
  · left
    refine ⟨h, ?_⟩
    have : k + 1 = q * (k / q + 1) := by
      rw [Nat.mul_add, Nat.mul_one]
      omega
    rw [this]
    exact Nat.mul_mod_right _ _
  · right
    have h2 : k % q + 1 < q := by omega
    refine ⟨h2, ?_⟩
    have : k + 1 = q * (k / q) + (k % q + 1) := by omega
    rw [this, Nat.mul_add_mod, Nat.mod_eq_of_lt h2]

/-- One `so_exec` of a `RUNNING` current thread while every queue is empty. -/
theorem lone_step {s : str_schedule} {c : Nat} {t : thread}
    (hcur : s.current_thread = some c) (hc : s.threads[c]? = some t)
    (hrun : t.status = .RUNNING) (h0 : 0 < t.rem_time) (h1 : t.rem_time < UINT_RANGE)
    (hempty : ∀ i : Nat, queue s i = []) :
    so_exec (some s) = .ok (some { s with
      threads := s.threads.set c { t with
        rem_time := if t.rem_time = 1 then s.quantum else t.rem_time - 1
        status := .RUNNING
        semaphore := t.semaphore + 1 } }) := by
  have hclt : c < s.threads.length := (List.getElem?_eq_some.1 hc).1
  have hst : ¬ (t.status = .TERMINATED ∨ t.status = .WAITING) := by
    rw [hrun]
    simp
  have hc1 : (store s c { t with rem_time := t.rem_time - 1 }).threads[c]? =
      some { t with rem_time := t.rem_time - 1 } := by
    simp only [store_threads, List.getElem?_set, if_true, hclt]
  rw [so_exec_eq, exec_body_eq hcur hc, dec_of_pos h0 h1,
    check_running_none (s := store s c { t with rem_time := t.rem_time - 1 }) hcur hc1 hst
      (get_max_none_of_empty hempty),
    continue_current_eq (s := store s c { t with rem_time := t.rem_time - 1 }) hcur hc1]
  have hif : (t.rem_time - 1 ≤ 0) = (t.rem_time = 1) := by
    apply propext
    constructor <;> intro h <;> omega
  simp only [ok_bind, pure_ok, store_threads, store_quantum, List.set_set, hif]
  rfl

/-- C20: a `RUNNING` current thread `c` with a full quantum `q ≥ 1` (an
`unsigned int`) is alone, every queue being empty. After `n` consecutive calls
of `so_exec`, for every `n`, the calls have returned, `c` is still current and
`RUNNING`, every queue is still empty and `c` has `rem_time = q - n % q`. -/
theorem lone_task_cycles (s : str_schedule) (c : Nat) (ct : thread) (n : Nat)
    (hcur : s.current_thread = some c) (hc : s.threads[c]? = some ct)
    (hrun : ct.status = .RUNNING) (hrem : ct.rem_time = s.quantum)
    (hq0 : 1 ≤ s.quantum) (hq1 : s.quantum < UINT_RANGE)
    (hempty : ∀ i : Nat, queue s i = []) :
    ∃ (s' : str_schedule) (t' : thread), so_exec_n n (some s) = .ok (some s') ∧
      s'.current_thread = some c ∧ s'.threads[c]? = some t' ∧ t'.status = .RUNNING ∧
      t'.rem_time = s.quantum - n % s.quantum ∧ (∀ i : Nat, queue s' i = []) ∧
      s'.quantum = s.quantum := by
  induction n with
  | zero =>
    exact ⟨s, ct, rfl, hcur, hc, hrun, by simp [hrem], hempty, rfl⟩
  | succ k ih =>
    obtain ⟨sk, tk, hk, hkcur, hkc, hkrun, hkrem, hkempty, hkq⟩ := ih
    have hmod := Nat.mod_lt k (show 0 < s.quantum from hq0)
    have hstep := lone_step hkcur hkc hkrun (by omega) (by omega) hkempty
    have hklt : c < sk.threads.length := (List.getElem?_eq_some.1 hkc).1
    refine ⟨{ sk with
        threads := sk.threads.set c { tk with
          rem_time := if tk.rem_time = 1 then sk.quantum else tk.rem_time - 1
          status := .RUNNING
          semaphore := tk.semaphore + 1 } },
      { tk with
        rem_time := if tk.rem_time = 1 then sk.quantum else tk.rem_time - 1
        status := .RUNNING
        semaphore := tk.semaphore + 1 }, ?_, hkcur, ?_, rfl, ?_, hkempty, hkq⟩
    · rw [so_exec_n_succ, hk]
      exact hstep
    · simp only [List.getElem?_set, if_true, hklt]
    · show (if tk.rem_time = 1 then sk.quantum else tk.rem_time - 1) =
        s.quantum - (k + 1) % s.quantum
      rw [hkq, hkrem]
      rcases succ_mod_cases k s.quantum hq0 with ⟨h1, h2⟩ | ⟨h1, h2⟩
      · rw [h2, if_pos (by omega)]
        rfl
      · rw [h2, if_neg (by omega)]
        omega

theorem lone_task_cycles_witness :
    ∃ (s' : str_schedule) (t' : thread), so_exec_n 3 (some example_first) = .ok (some s') ∧
      s'.current_thread = some 0 ∧ s'.threads[0]? = some t' ∧ t'.status = .RUNNING ∧
      t'.rem_time = example_first.quantum - 3 % example_first.quantum ∧
      (∀ i : Nat, queue s' i = []) ∧ s'.quantum = example_first.quantum :=
  lone_task_cycles example_first 0 example_A 3 rfl rfl rfl rfl (by decide) (by decide)
    (by
      intro i
      simp only [queue, example_first, example_fresh, List.getD_eq_getElem?_getD]
      match i with
      | 0 | 1 | 2 | 3 | 4 | 5 => rfl
      | _ + 6 => rfl)

/-! ## Round-robin between two threads of one priority -/

theorem first_nonempty_congr {s z : str_schedule} (h : z.queues = s.queues) (n : Nat) :
    first_nonempty z n = first_nonempty s n := by
  induction n with
  | zero => rfl
  | succ k ih =>
    unfold first_nonempty
    rw [ih]
    simp only [queue, h]

theorem get_max_congr {s z : str_schedule} (h : z.queues = s.queues) :
    get_max_priority_thread z = get_max_priority_thread s := by
  unfold get_max_priority_thread
  rw [first_nonempty_congr h]
  simp only [queue, h]

/-- One `so_exec` of a `RUNNING` current thread with at least two units left,
while a thread of its own priority heads the highest non-empty queue. -/
theorem peer_step {z : str_schedule} {c b : Nat} {t bt : thread}
    (hcur : z.current_thread = some c) (hc : z.threads[c]? = some t)
    (hrun : t.status = .RUNNING) (h2 : 2 ≤ t.rem_time) (h1 : t.rem_time < UINT_RANGE)
    (hn : get_max_priority_thread z = some b) (hbt : z.threads[b]? = some bt)
    (hbp : bt.priority = t.priority) (hne : b ≠ c) :
    so_exec (some z) = .ok (some { z with
      threads := z.threads.set c { t with
        rem_time := t.rem_time - 1
        status := .RUNNING
        semaphore := t.semaphore + 1 } }) := by
  have hclt : c < z.threads.length := (List.getElem?_eq_some.1 hc).1
  have hst : ¬ (t.status = .TERMINATED ∨ t.status = .WAITING) := by
    rw [hrun]
    simp
  have hc1 : (store z c { t with rem_time := t.rem_time - 1 }).threads[c]? =
      some { t with rem_time := t.rem_time - 1 } := by
    simp only [store_threads, List.getElem?_set, if_true, hclt]
  have hb1 : (store z c { t with rem_time := t.rem_time - 1 }).threads[b]? = some bt := by
    simp only [store_threads, List.getElem?_set, Ne.symm hne, if_false]
    exact hbt
  have hn1 : get_max_priority_thread (store z c { t with rem_time := t.rem_time - 1 }) =
      some b := (get_max_congr rfl).trans hn
  have hcond : ¬ (bt.priority > ({ t with rem_time := t.rem_time - 1 } : thread).priority ∨
      (bt.priority = ({ t with rem_time := t.rem_time - 1 } : thread).priority ∧
        ({ t with rem_time := t.rem_time - 1 } : thread).rem_time ≤ 0)) := by
    show ¬ (bt.priority > t.priority ∨ (bt.priority = t.priority ∧ t.rem_time - 1 ≤ 0))
    rintro (h | ⟨-, h⟩) <;> omega
  rw [so_exec_eq, exec_body_eq hcur hc, dec_of_pos (by omega) h1,
    check_running_next (s := store z c { t with rem_time := t.rem_time - 1 }) hcur hc1 hst
      hn1 hb1, if_neg hcond,
    continue_current_eq (s := store z c { t with rem_time := t.rem_time - 1 }) hcur hc1]
  have hif : ¬ (t.rem_time - 1 ≤ 0) := by omega
  simp only [ok_bind, pure_ok, store_threads, store_quantum, List.set_set, hif, if_false]
  rfl

/-- The `so_exec` of a `RUNNING` current thread with one unit left, while a
thread of its own priority heads the highest non-empty queue. -/
theorem peer_last {z : str_schedule} {c b f : Nat} {t bt : thread}
    (hcur : z.current_thread = some c) (hc : z.threads[c]? = some t)
    (hrun : t.status = .RUNNING) (hone : t.rem_time = 1)
    (hf : first_nonempty z 6 = some f) (hn : get_max_priority_thread z = some b)
    (hbt : z.threads[b]? = some bt)
    (hbp : bt.priority = t.priority) (hne : b ≠ c) (hcp : t.priority < z.queues.length) :
    so_exec (some z) = .ok (some { z with
      queues := (z.queues.set f (queue z f).tail).set t.priority
        ((z.queues.set f (queue z f).tail).getD t.priority [] ++ [c])
      current_thread := some b
      threads := (z.threads.set c { t with rem_time := z.quantum, status := .READY }).set b
        { bt with status := .RUNNING, semaphore := bt.semaphore + 1 } }) := by
  have hclt : c < z.threads.length := (List.getElem?_eq_some.1 hc).1
  have hst : ¬ (t.status = .TERMINATED ∨ t.status = .WAITING) := by
    rw [hrun]
    simp
  have hc1 : (store z c { t with rem_time := 0 }).threads[c]? =
      some { t with rem_time := 0 } := by
    simp only [store_threads, List.getElem?_set, if_true, hclt]
  have hb1 : (store z c { t with rem_time := 0 }).threads[b]? = some bt := by
    simp only [store_threads, List.getElem?_set, Ne.symm hne, if_false]
    exact hbt
  have hn1 : get_max_priority_thread (store z c { t with rem_time := 0 }) = some b :=
    (get_max_congr rfl).trans hn
  have hf1 : first_nonempty (store z c { t with rem_time := 0 }) 6 = some f :=
    (first_nonempty_congr rfl 6).trans hf
  have hcond : bt.priority > ({ t with rem_time := 0 } : thread).priority ∨
      (bt.priority = ({ t with rem_time := 0 } : thread).priority ∧
        ({ t with rem_time := 0 } : thread).rem_time ≤ 0) :=
    Or.inr ⟨hbp, Nat.le_refl 0⟩
  have hdec : (t.rem_time + UINT_RANGE - 1) % UINT_RANGE = 0 := by
    rw [hone]
    rfl
  rw [so_exec_eq, exec_body_eq hcur hc, hdec,
    check_running_next (s := store z c { t with rem_time := 0 }) hcur hc1 hst hn1 hb1,
    if_pos hcond,
    change_thread_eq (s := store z c { t with rem_time := 0 }) hf1 hb1 hc1 hne hcp]
  simp only [ok_bind, pure_ok, store_threads, store_quantum, store_queues, queue_store,
    List.set_set]
  rfl

/-- The first calls of `so_exec` of a `RUNNING` current thread, fewer than its
remaining units, with a thread of its own priority at the head of the highest
non-empty queue: the thread stays current and only its record changes. -/
theorem peer_iter {s : str_schedule} {c b : Nat} {ct bt : thread}
    (hcur : s.current_thread = some c) (hc : s.threads[c]? = some ct)
    (hrun : ct.status = .RUNNING) (h1 : ct.rem_time < UINT_RANGE)
    (hn : get_max_priority_thread s = some b) (hbt : s.threads[b]? = some bt)
    (hbp : bt.priority = ct.priority) (hne : b ≠ c) :
    ∀ k : Nat, k < ct.rem_time → ∃ (sk : str_schedule) (tk : thread),
      so_exec_n k (some s) = .ok (some sk) ∧ sk.current_thread = some c ∧
      sk.threads[c]? = some tk ∧ tk.status = .RUNNING ∧ tk.rem_time = ct.rem_time - k ∧
      tk.priority = ct.priority ∧ sk.queues = s.queues ∧ sk.quantum = s.quantum ∧
      sk.threads[b]? = some bt := by
  intro k
  induction k with
  | zero =>
    intro _
    exact ⟨s, ct, rfl, hcur, hc, hrun, rfl, rfl, rfl, rfl, hbt⟩
  | succ k ih =>
    intro hk
    obtain ⟨sk, tk, hsk, hkcur, hkc, hkrun, hkrem, hkp, hkq, hkqu, hkb⟩ := ih (by omega)
    have hklt : c < sk.threads.length := (List.getElem?_eq_some.1 hkc).1
    have hstep := peer_step hkcur hkc hkrun (by omega) (by omega)
      ((get_max_congr hkq).trans hn) hkb (hbp.trans hkp.symm) hne
    refine ⟨{ sk with
        threads := sk.threads.set c { tk with
          rem_time := tk.rem_time - 1
          status := .RUNNING
          semaphore := tk.semaphore + 1 } },
      { tk with
        rem_time := tk.rem_time - 1
        status := .RUNNING
        semaphore := tk.semaphore + 1 }, ?_, hkcur, ?_, rfl, ?_, hkp, hkq, hkqu, ?_⟩
    · rw [so_exec_n_succ, hsk]
      exact hstep
    · simp only [List.getElem?_set, if_true, hklt]
    · show tk.rem_time - 1 = ct.rem_time - (k + 1)
      omega
    · simp only [List.getElem?_set, Ne.symm hne, if_false]
      exact hkb

/-- C19: a `RUNNING` current thread `c` has a full quantum `q ≥ 1` (an
`unsigned int`), and the highest non-empty queue is the queue of its priority,
with head `b` (another thread, of that priority). Then each of the first
`q - 1` consecutive calls of `so_exec` returns and leaves `c` current and
`RUNNING`, with one unit less and the queues unchanged; the `q`-th call makes
`b` the current thread, removes it from the head of the queue and puts `c` at
its tail, `READY` with `rem_time = q`. -/
theorem round_robin (s : str_schedule) (c b : Nat) (ct bt : thread) (rest : List tthread)
    (hcur : s.current_thread = some c) (hc : s.threads[c]? = some ct)
    (hrun : ct.status = .RUNNING) (hrem : ct.rem_time = s.quantum)
    (hq0 : 1 ≤ s.quantum) (hq1 : s.quantum < UINT_RANGE)
    (hf : first_nonempty s 6 = some ct.priority) (hqb : queue s ct.priority = b :: rest)
    (hbt : s.threads[b]? = some bt) (hbp : bt.priority = ct.priority) (hne : b ≠ c)
    (hlen : s.queues.length = 6) :
    (∀ k : Nat, k < s.quantum → ∃ (sk : str_schedule) (tk : thread),
      so_exec_n k (some s) = .ok (some sk) ∧ sk.current_thread = some c ∧
      sk.threads[c]? = some tk ∧ tk.status = .RUNNING ∧ tk.rem_time = s.quantum - k ∧
      sk.queues = s.queues) ∧
    ∃ (s' : str_schedule) (t' : thread),
      so_exec_n s.quantum (some s) = .ok (some s') ∧ s'.current_thread = some b ∧
      queue s' ct.priority = rest ++ [c] ∧
      (∀ j : Nat, j ≠ ct.priority → queue s' j = queue s j) ∧
      s'.threads[c]? = some t' ∧ t'.status = .READY ∧ t'.rem_time = s.quantum ∧
      s'.threads[b]? = some { bt with status := .RUNNING, semaphore := bt.semaphore + 1 } := by
  have hn : get_max_priority_thread s = some b := get_max_of_first hf hqb
  have hiter := peer_iter hcur hc hrun (by omega) hn hbt hbp hne
  constructor
  · intro k hk
    obtain ⟨sk, tk, h1, h2, h3, h4, h5, -, h6, -, -⟩ := hiter k (by omega)
    exact ⟨sk, tk, h1, h2, h3, h4, by omega, h6⟩
  · obtain ⟨sk, tk, hsk, hkcur, hkc, hkrun, hkrem, hkp, hkq, hkqu, hkb⟩ :=
      hiter (s.quantum - 1) (by omega)
    have hklt : c < sk.threads.length := (List.getElem?_eq_some.1 hkc).1
    have hblt : b < sk.threads.length := (List.getElem?_eq_some.1 hkb).1
    have hf6 : ct.priority < s.queues.length := by
      rw [hlen]
      exact (first_nonempty_some hf).1
    have hkf : first_nonempty sk 6 = some tk.priority := by
      rw [first_nonempty_congr hkq, hkp]
      exact hf
    have hkqb : queue sk tk.priority = b :: rest := by
      rw [hkp, ← hqb]
      simp only [queue, hkq]
    have hkf6 : tk.priority < sk.queues.length := by
      rw [hkq, hkp]
      exact hf6
    have hlast := peer_last hkcur hkc hkrun (by omega) hkf ((get_max_congr hkq).trans hn) hkb
      (hbp.trans hkp.symm) hne hkf6
    have hqueue := change_thread_queue (c := c) hkqb hkf6 hkf6
    have hsucc : so_exec_n s.quantum (some s) =
        (so_exec_n (s.quantum - 1) (some s) >>= so_exec) := by
      have := so_exec_n_succ (s.quantum - 1) (some s)
      rwa [Nat.sub_add_cancel hq0] at this
    refine ⟨{ sk with
        queues := (sk.queues.set tk.priority (queue sk tk.priority).tail).set tk.priority
          ((sk.queues.set tk.priority (queue sk tk.priority).tail).getD tk.priority [] ++ [c])
        current_thread := some b
        threads := (sk.threads.set c { tk with rem_time := sk.quantum, status := .READY }).set b
          { bt with status := .RUNNING, semaphore := bt.semaphore + 1 } },
      { tk with rem_time := sk.quantum, status := .READY }, ?_, rfl, ?_, ?_, ?_, rfl,
      hkqu, ?_⟩
    · rw [hsucc, hsk]
      exact hlast
    · show ((sk.queues.set tk.priority (queue sk tk.priority).tail).set tk.priority
          ((sk.queues.set tk.priority (queue sk tk.priority).tail).getD tk.priority [] ++
            [c])).getD ct.priority [] = rest ++ [c]
      rw [hqueue ct.priority, if_pos hkp.symm, if_pos hkp.symm]
    · intro j hj
      show ((sk.queues.set tk.priority (queue sk tk.priority).tail).set tk.priority
          ((sk.queues.set tk.priority (queue sk tk.priority).tail).getD tk.priority [] ++
            [c])).getD j [] = queue s j
      rw [hqueue j, if_neg (by rw [hkp]; exact hj), if_neg (by rw [hkp]; exact hj),
        List.append_nil]
      simp only [queue, hkq]
    · simp only [List.getElem?_set, hne, if_false, if_true, hklt]
    · simp only [List.getElem?_set, List.length_set, if_true, hblt]

theorem round_robin_witness :
    (∀ k : Nat, k < example_peer.quantum → ∃ (sk : str_schedule) (tk : thread),
      so_exec_n k (some example_peer) = .ok (some sk) ∧ sk.current_thread = some 1 ∧
      sk.threads[1]? = some tk ∧ tk.status = .RUNNING ∧
      tk.rem_time = example_peer.quantum - k ∧ sk.queues = example_peer.queues) ∧
    ∃ (s' : str_schedule) (t' : thread),
      so_exec_n example_peer.quantum (some example_peer) = .ok (some s') ∧
      s'.current_thread = some 0 ∧
      queue s' 1 = [] ++ [1] ∧
      (∀ j : Nat, j ≠ 1 → queue s' j = queue example_peer j) ∧
      s'.threads[1]? = some t' ∧ t'.status = .READY ∧ t'.rem_time = example_peer.quantum ∧
      s'.threads[0]? = some { example_A with status := .RUNNING, semaphore := 3 } :=
  round_robin example_peer 1 0 { example_B with priority := 1 }
    { example_A with status := .READY, semaphore := 2 } [] rfl rfl rfl rfl (by decide)
    (by decide) rfl rfl rfl rfl (by decide) rfl

/-! ## First in, first out -/

theorem queued_before_append {a b : Nat} {l : List tthread} (h : queued_before a b l)
    (e : List tthread) : queued_before a b (l ++ e) := by
  obtain ⟨l₁, l₂, l₃, rfl⟩ := h
  exact ⟨l₁, l₂, l₃ ++ e, by simp⟩

theorem queued_before_mem {a b : Nat} {l : List tthread} (h : queued_before a b l) :
    a ∈ l ∧ b ∈ l := by
  obtain ⟨l₁, l₂, l₃, rfl⟩ := h
  constructor <;> simp

/-- In a queue without duplicates, the thread behind another one is not the
head, and when the head leaves, the order of the two is kept unless the first
of them was the head. -/
theorem queued_before_tail {a b n : Nat} {rest : List tthread}
    (h : queued_before a b (n :: rest)) (hnd : (n :: rest).Nodup) :
    n ≠ b ∧ (a ∈ rest → queued_before a b rest) := by
  obtain ⟨l₁, l₂, l₃, heq⟩ := h
  rw [List.nodup_cons] at hnd
  cases l₁ with
  | nil =>
    simp only [List.nil_append, List.cons.injEq] at heq
    obtain ⟨h1, h2⟩ := heq
    subst h1
    refine ⟨?_, fun ha => absurd ha hnd.1⟩
    rintro rfl
    apply hnd.1
    rw [h2]
    simp
  | cons x l₁' =>
    simp only [List.cons_append, List.cons.injEq] at heq
    obtain ⟨h1, h2⟩ := heq
    subst h1
    refine ⟨?_, fun _ => ⟨l₁', l₂, l₃, h2⟩⟩
    rintro rfl
    apply hnd.1
    rw [h2]
    simp

/-- The current thread and the queues after a decision: either nothing of
them has changed, or the head of the highest non-empty queue has left it and
is current, and at most the old current thread has joined a tail. -/
theorem check_scheduler_queues {z s' : str_schedule} (hpre : PreInv z)
    (h : check_scheduler z = .ok s') :
    (s'.current_thread = z.current_thread ∧ ∀ j : Nat, queue s' j = queue z j) ∨
    (∃ (n f : Nat) (rest : List tthread), first_nonempty z 6 = some f ∧
      queue z f = n :: rest ∧ s'.current_thread = some n ∧
      ∀ j : Nat, ∃ e : List tthread, (∀ x ∈ e, z.current_thread = some x) ∧
        queue s' j = (if j = f then rest else queue z j) ++ e) := by
  obtain ⟨hq, hs, hnone, hsome⟩ := hpre
  have hlen : z.queues.length = 6 := hq.1
  have hrun_next : ∀ n : Nat, get_max_priority_thread z = some n →
      run_next z (some n) = .ok s' →
      ∃ (n f : Nat) (rest : List tthread), first_nonempty z 6 = some f ∧
        queue z f = n :: rest ∧ s'.current_thread = some n ∧
        ∀ j : Nat, ∃ e : List tthread, (∀ x ∈ e, z.current_thread = some x) ∧
          queue s' j = (if j = f then rest else queue z j) ++ e := by
    intro n hn hr
    obtain ⟨f, rest, hf, hqf⟩ := get_max_some hn
    obtain ⟨_, nt, hf', hnt, -⟩ := dequeue_facts hq hn
    rw [run_next_eq hf hnt] at hr
    simp only [Except.ok.injEq] at hr
    subst hr
    refine ⟨n, f, rest, hf, hqf, rfl, fun j => ⟨[], fun x hx => absurd hx (List.not_mem_nil x), ?_⟩⟩
    show (z.queues.set f (queue z f).tail).getD j [] = _
    rw [getD_set, hqf, List.tail_cons, List.append_nil]
    have hf6 : f < z.queues.length := by
      rw [hlen]
      exact (first_nonempty_some hf).1
    by_cases hj : f = j
    · subst hj
      simp [hf6]
    · simp [hj, Ne.symm hj, queue]
  have hcontinue : continue_current z = .ok s' →
      s'.current_thread = z.current_thread ∧ ∀ j : Nat, queue s' j = queue z j := by
    intro hc
    rcases Option.eq_none_or_eq_some z.current_thread with hcur | ⟨c, hcur⟩
    · simp [continue_current, reset_quantum, hcur] at hc
    · obtain ⟨ct, hct, -⟩ := hsome c hcur
      rw [continue_current_eq hcur hct] at hc
      simp only [Except.ok.injEq] at hc
      subst hc
      exact ⟨rfl, fun j => rfl⟩
  rcases Option.eq_none_or_eq_some z.current_thread with hcur | ⟨c, hcur⟩
  · cases hn : get_max_priority_thread z with
    | none => exact absurd hn (hnone hcur)
    | some n =>
      rw [check_none hcur, hn] at h
      exact Or.inr (hrun_next n hn h)
  · obtain ⟨ct, hc, hnr⟩ := hsome c hcur
    by_cases hst : ct.status = .TERMINATED ∨ ct.status = .WAITING
    · cases hn : get_max_priority_thread z with
      | none =>
        rw [check_parked_none hcur hc hst hn] at h
        simp only [Except.ok.injEq] at h
        subst h
        exact Or.inl ⟨rfl, fun j => rfl⟩
      | some n =>
        rw [check_parked_next hcur hc hst hn] at h
        exact Or.inr (hrun_next n hn h)
    · have hrun : ct.status = .RUNNING := status_cases _ (hs c ct hc).1 hnr hst
      cases hn : get_max_priority_thread z with
      | none =>
        rw [check_running_none hcur hc hst hn] at h
        exact Or.inl (hcontinue h)
      | some n =>
        obtain ⟨f, rest, hf, hqf⟩ := get_max_some hn
        obtain ⟨_, nt, -, hnt, hnst, -⟩ := dequeue_facts hq hn
        have hne : n ≠ c := by
          rintro rfl
          rw [hc] at hnt
          cases hnt
          exact hnr hnst
        have hcp : ct.priority < z.queues.length := by
          have := hq.2.1 c ct hc
          simp only [ SO_MAX_PRIO] at this
          omega
        have hf6 : f < z.queues.length := by
          rw [hlen]
          exact (first_nonempty_some hf).1
        rw [check_running_next hcur hc hst hn hnt] at h
        split at h
        · rw [change_thread_eq hf hnt hc hne hcp] at h
          simp only [Except.ok.injEq] at h
          subst h
          refine Or.inr ⟨n, f, rest, hf, hqf, rfl, fun j =>
            ⟨if j = ct.priority then [c] else [], fun x hx => ?_,
              change_thread_queue hqf hf6 hcp j⟩⟩
          split at hx
          · rw [List.mem_singleton] at hx
            rw [hx]
            exact hcur
          · exact absurd hx (List.not_mem_nil x)
        · exact Or.inl (hcontinue h)

/-- While `a` stands before `b` in a queue when the decision function is
entered, the decision does not make `b` current, and if `a` is still queued
afterwards it still stands before `b`. -/
theorem fifo_core {z s' : str_schedule} (hpre : PreInv z) {i a b : Nat}
    (hab : queued_before a b (queue z i)) (h : check_scheduler z = .ok s') :
    s'.current_thread ≠ some b ∧ (a ∈ queue s' i → queued_before a b (queue s' i)) := by
  have hq := hpre.1
  obtain ⟨ha, hb⟩ := queued_before_mem hab
  have hready : ∀ x : Nat, x ∈ queue z i → z.current_thread ≠ some x := by
    intro x hx hcur
    obtain ⟨t, ht, hts, -⟩ := hq.2.2.1 i x hx
    obtain ⟨ct, hct, hnr⟩ := hpre.2.2.2 x hcur
    rw [ht] at hct
    cases hct
    exact hnr hts
  rcases check_scheduler_queues hpre h with ⟨hcur, hqs⟩ | ⟨n, f, rest, hf, hqf, hcur, hqs⟩
  · refine ⟨?_, fun _ => ?_⟩
    · rw [hcur]
      exact hready b hb
    · rw [hqs i]
      exact hab
  · obtain ⟨e, he, hqi⟩ := hqs i
    by_cases hif : i = f
    · subst hif
      rw [hqf] at hab
      have hnd := hq.2.2.2.1 i
      rw [hqf] at hnd
      obtain ⟨hnb, hkeep⟩ := queued_before_tail hab hnd
      refine ⟨?_, fun ha' => ?_⟩
      · rw [hcur]
        exact fun h1 => hnb (Option.some.inj h1)
      · rw [hqi, if_pos rfl] at ha' ⊢
        rcases List.mem_append.1 ha' with h1 | h1
        · exact queued_before_append (hkeep h1) e
        · exact absurd (he a h1) (hready a ha)
    · refine ⟨?_, fun _ => ?_⟩
      · rw [hcur]
        intro h1
        have hnb : n = b := Option.some.inj h1
        subst hnb
        have hnf : n ∈ queue z f := by
          rw [hqf]
          exact List.mem_cons_self _ _
        obtain ⟨t1, ht1, -, hp1⟩ := hq.2.2.1 f n hnf
        obtain ⟨t2, ht2, -, hp2⟩ := hq.2.2.1 i n hb
        rw [ht1] at ht2
        cases ht2
        exact hif (hp2.symm.trans hp1)
      · rw [hqi, if_neg hif]
        exact queued_before_append hab e

theorem fifo_exec_body {z s' : str_schedule} (hpre : PreInv z) {c i a b : Nat}
    (hcur : z.current_thread = some c) (hab : queued_before a b (queue z i))
    (h : exec_body z = .ok s') : fifo_kept a b i s' := by
  obtain ⟨ct, hc, hnr⟩ := hpre.2.2.2 c hcur
  rw [exec_body_eq hcur hc] at h
  have hpre' : PreInv (store z c
      { ct with rem_time := (ct.rem_time + UINT_RANGE - 1) % UINT_RANGE }) :=
    store_current_preinv hpre hcur hc rfl (hpre.2.1 c ct hc).1 hnr
  exact fifo_core hpre' hab h

/-- In a consistent scheduler a queued thread is not the current one. -/
theorem Inv.fifo_same {s : str_schedule} (hinv : Inv s) {i a b : Nat}
    (hab : queued_before a b (queue s i)) : fifo_kept a b i s := by
  refine ⟨fun hcur => ?_, fun _ => hab⟩
  obtain ⟨t, ht, hts, -⟩ := hinv.1.2.2.1 i b (queued_before_mem hab).2
  obtain ⟨ct, hct, hcase⟩ := hinv.2.2.2 b hcur
  rw [ht] at hct
  cases hct
  rcases hcase with ⟨h1, -⟩ | ⟨h1 | h1, -⟩ <;> rw [hts] at h1 <;> cases h1

/-- In a consistent scheduler with a queued thread the current thread is set
and `RUNNING`. -/
theorem Inv.running_of_queued {s : str_schedule} (hinv : Inv s) {i x : Nat}
    (hx : x ∈ queue s i) : running s := by
  rcases Option.eq_none_or_eq_some s.current_thread with hcur | ⟨c, hcur⟩
  · obtain ⟨t, ht, -⟩ := hinv.1.2.2.1 i x hx
    rw [hinv.2.2.1 hcur] at ht
    simp at ht
  · obtain ⟨ct, hct, hcase⟩ := hinv.2.2.2 c hcur
    rcases hcase with ⟨h1, -⟩ | ⟨-, h1⟩
    · exact ⟨c, ct, hcur, hct, h1⟩
    · rw [h1 i] at hx
      cases hx

/-- C15: `enqueue` puts the thread at the tail of the queue of its priority
and leaves the other queues as they are; `dequeue` removes the head of the
highest non-empty queue, the thread that `get_max_priority_thread` returns,
and leaves the other queues as they are. Hence, in a reachable scheduler in
which `a` stands before `b` in queue `i`, no API call makes `b` the current
thread, and after the call `a` has left the queue or still stands before `b`. -/
theorem fifo_discipline (SO_MAX_NUM_EVENTS : Nat) (s : str_schedule)
    (h : Reachable SO_MAX_NUM_EVENTS s) (i a b : Nat)
    (hab : queued_before a b (queue s i)) :
    (∀ (z : str_schedule) (p : Nat) (t : thread), z.threads[p]? = some t →
      t.priority < z.queues.length →
      ∃ z', enqueue z p = .ok z' ∧ queue z' t.priority = queue z t.priority ++ [p] ∧
        ∀ j : Nat, j ≠ t.priority → queue z' j = queue z j) ∧
    (∀ (z : str_schedule) (f : Nat), first_nonempty z 6 = some f → z.queues.length = 6 →
      get_max_priority_thread z = (queue z f).head? ∧
      queue (dequeue z) f = (queue z f).tail ∧
      ∀ j : Nat, j ≠ f → queue (dequeue z) j = queue z j) ∧
    (∀ (func : Option Nat) (priority tid : Nat) (s' : str_schedule),
      so_fork (some s) func priority = .ok (tid, some s') → fifo_kept a b i s') ∧
    (∀ s' : str_schedule, so_exec (some s) = .ok (some s') → fifo_kept a b i s') ∧
    (∀ (io : Nat) (r : Int) (s' : str_schedule),
      so_wait (some s) io = .ok (r, some s') → fifo_kept a b i s') ∧
    (∀ (io : Nat) (r : Int) (s' : str_schedule),
      so_signal (some s) io = .ok (r, some s') → fifo_kept a b i s') ∧
    (∀ (c : Nat) (s' : str_schedule), s.current_thread = some c →
      start_thread_return s c = .ok s' → fifo_kept a b i s') := by
  have hinv := inv_of_reachable h
  obtain ⟨c, ct, hcur, hc, hrun⟩ := hinv.running_of_queued (queued_before_mem hab).1
  have hpre := hinv.preInv hcur
  have hclt : c < s.threads.length := (List.getElem?_eq_some.1 hc).1
  refine ⟨?_, ?_, ?_, ?_, ?_, ?_, ?_⟩
  · intro z p t ht hp
    refine ⟨_, enqueue_eq ht hp, ?_, fun j hj => ?_⟩
    · show (z.queues.set t.priority (queue z t.priority ++ [p])).getD t.priority [] = _
      rw [getD_set]
      simp [hp]
    · show (z.queues.set t.priority (queue z t.priority ++ [p])).getD j [] = _
      rw [getD_set]
      simp [Ne.symm hj, queue]
  · intro z f hf hlen
    have hf6 : f < z.queues.length := by
      rw [hlen]
      exact (first_nonempty_some hf).1
    refine ⟨by simp [get_max_priority_thread, hf], ?_, fun j hj => ?_⟩
    · rw [dequeue_eq hf]
      show (z.queues.set f (queue z f).tail).getD f [] = _
      rw [getD_set]
      simp [hf6]
    · rw [dequeue_eq hf]
      show (z.queues.set f (queue z f).tail).getD j [] = _
      rw [getD_set]
      simp [Ne.symm hj, queue]
  · intro func priority tid s' hf
    by_cases hbad : priority > SO_MAX_PRIO ∨ func = none
    · simp only [so_fork, hbad, if_true, pure_ok, Except.ok.injEq, Prod.mk.injEq,
        Option.some.injEq] at hf
      rw [← hf.2]
      exact hinv.fifo_same hab
    · cases func with
      | none => simp at hbad
      | some f =>
        have hp5 : priority ≤ SO_MAX_PRIO := by
          have : ¬ priority > SO_MAX_PRIO := fun h => hbad (Or.inl h)
          omega
        have hfcur : (forked s f priority).current_thread = some c := hcur
        rw [so_fork_eq f priority hp5 hinv.1.1, hfcur] at hf
        simp only [reduceCtorEq, if_false] at hf
        cases hex : exec_body (forked s f priority) with
        | error e => simp [hex] at hf
        | ok s4 =>
          rw [hex] at hf
          simp only [ok_bind] at hf
          cases hl : load s4 s.threads.length with
          | error e => simp [hl] at hf
          | ok t =>
            simp only [hl, ok_bind, pure_ok, Except.ok.injEq, Prod.mk.injEq,
              Option.some.injEq] at hf
            rw [← hf.2]
            refine fifo_exec_body (forked_preinv hinv f priority hp5) hfcur ?_ hex
            show queued_before a b
              ((s.queues.set priority (queue s priority ++ [s.threads.length])).getD i [])
            rw [getD_set]
            split
            · rename_i hpi
              rw [hpi.1]
              exact queued_before_append hab _
            · exact hab
  · intro s' he
    rw [so_exec_eq] at he
    cases hex : exec_body s with
    | error e => simp [hex] at he
    | ok s1 =>
      simp only [hex, ok_bind, pure_ok, Except.ok.injEq, Option.some.injEq] at he
      rw [← he]
      exact fifo_exec_body hpre hcur hab hex
  · intro io r s' hw
    by_cases hio : io ≥ s.io
    · simp only [so_wait, hio, if_true, pure_ok, Except.ok.injEq, Prod.mk.injEq,
        Option.some.injEq] at hw
      rw [← hw.2]
      exact hinv.fifo_same hab
    · simp only [so_wait, hio, if_false, hcur, load_of_get hc, ok_bind] at hw
      cases hex : exec_body (store s c { ct with status := .WAITING, io_device := io }) with
      | error e => simp [hex] at hw
      | ok s1 =>
        simp only [hex, ok_bind, pure_ok, Except.ok.injEq, Prod.mk.injEq,
          Option.some.injEq] at hw
        rw [← hw.2]
        have hpre' : PreInv (store s c { ct with status := .WAITING, io_device := io }) :=
          store_current_preinv hpre hcur hc rfl (by simp) (by simp)
        exact fifo_exec_body hpre' hcur hab hex
  · intro io r s' hsig
    by_cases hio : io ≥ s.io
    · simp only [so_signal, hio, if_true, pure_ok, Except.ok.injEq, Prod.mk.injEq,
        Option.some.injEq] at hsig
      rw [← hsig.2]
      exact hinv.fifo_same hab
    · obtain ⟨s1, hs1, -, hq1, -, -, -, hcur1, -, hpre1⟩ :=
        signal_scan_preinv hinv hcur hc hrun io
      simp only [so_signal, hio, if_false, hs1, ok_bind] at hsig
      cases hex : exec_body s1 with
      | error e => simp [hex] at hsig
      | ok s2 =>
        simp only [hex, ok_bind, pure_ok, Except.ok.injEq, Prod.mk.injEq,
          Option.some.injEq] at hsig
        rw [← hsig.2]
        refine fifo_exec_body hpre1 (hcur1.trans hcur) ?_ hex
        rw [hq1 i]
        exact queued_before_append hab _
  · intro c' s' hcur' ht
    rw [hcur] at hcur'
    cases hcur'
    simp only [start_thread_return, load_of_get hc, ok_bind] at ht
    have hpre' : PreInv (store s c { ct with status := .TERMINATED }) :=
      store_current_preinv hpre hcur hc rfl (by simp) (by simp)
    exact fifo_core hpre' hab ht

theorem fifo_discipline_witness :
    fifo_kept 1 2 0 { example_two_queued with
      threads := [{ example_A with rem_time := 1, semaphore := 4 },
                  { example_B with priority := 0, status := .READY, semaphore := 0 },
                  { example_B with thread_id := 3, priority := 0, start := 9, status := .READY,
                                   semaphore := 0 }] } :=
  (fifo_discipline 256 example_two_queued example_two_queued_reachable 0 1 2
    ⟨[], [], [], rfl⟩).2.2.2.1 _ rfl

/-- C5 fails on the code: in the reachable scheduler `example_drained` the
current thread `A` is `RUNNING` with `rem_time = 0` and device 0 exists;
`so_wait(0)` returns 0 and leaves `A` `WAITING` on device 0 and in no queue, but
with `rem_time = 4294967295`, which is not one unit less than 0. -/
theorem so_wait_wraps :
    Reachable 256 example_drained ∧
    example_drained.current_thread = some 0 ∧
    example_drained.threads[0]? = some { example_A with rem_time := 0, semaphore := 3 } ∧
    (0 : Nat) < example_drained.io ∧
    so_wait (some example_drained) 0 = .ok (0, some example_wait_wrapped) ∧
    example_wait_wrapped.threads[0]? =
      some { example_A with
        rem_time := 4294967295
        semaphore := 3
        status := .WAITING
        io_device := 0 } ∧
    example_wait_wrapped.queues = [[], [], [], [], [], []] ∧
    (4294967295 : Nat) + 1 ≠ 0 :=
  ⟨example_drained_reachable, rfl, rfl, by decide, rfl, rfl, rfl, by decide⟩

end ThreadRipper
